import Mathlib

/-!
# SH1106 OLED display driver and notifier: shallow embedding

The embedding follows `src/sh1106.cpp` and `src/sh1106_notify.cpp`.

* Bytes (`uint8_t`, `char`) are natural numbers; `% 256` is written where the
  source stores an arithmetic result back into a `uint8_t`.
* The I2C bus is explicit state: the transfers issued so far, plus the return
  code the bus gives to its k-th transfer.
* A C string is the list of bytes found at the pointer; the loops stop at the
  first zero byte or at the end of the list (the implicit terminator).
* The glyph table `g_font6x8` (from `font6x8.hpp`) and the signedness of `char`
  are parameters of the embedding.
* `Run` is modelled from the formatted lines on; of the formatters, the GPS line and
  the battery line are modelled, with `snprintf` as truncation to the buffer size and
  `%u`, `%d` as decimal digits; the floating-point operations of the battery line
  (finiteness test, `%.2f` text, range test, rounded percentage) are inputs.
* `Device` is the display controller's addressing and memory, used to say what a page
  holds after the transfers of a tick.
-/

namespace Oled

/-! ## Constants of `sh1106.cpp` -/

def PX4_OK : Int := 0

def CMD_SET_CONTRAST : Nat := 0x81
def CTRL_CMD : Nat := 0x00
def CTRL_DATA : Nat := 0x40
def COL_OFFSET : Nat := 2

/-! ## The bus -/

/-- The I2C bus seen from the driver: `log` holds the byte sequences handed to
`transfer` so far (oldest first); `ret k` is the code the bus returns for the
transfer issued when `k` transfers were already logged. -/
structure Bus where
  log : List (List Nat)
  ret : Nat → Int

/-- The call `transfer(buf, len, nullptr, 0)`: the bytes are put on the bus and the bus
answers with a return code. -/
def transfer (bus : Bus) (bytes : List Nat) : Int × Bus :=
  (bus.ret bus.log.length, { bus with log := bus.log ++ [bytes] })

/-- Every transfer from now on succeeds. -/
def Bus.allOk (bus : Bus) : Prop := ∀ k, bus.log.length ≤ k → bus.ret k = PX4_OK

/-! ## Bus transport: `send_cmd`, `send_cmds`, `send_data` -/

/-- The source's `SH1106::send_cmd`. -/
def send_cmd (c : Nat) (bus : Bus) : Int × Bus :=
  transfer bus [0x00, c]

/-- The source's `SH1106::send_cmds`: one `send_cmd` per byte, returning at the first
non-OK code. -/
def send_cmds : List Nat → Bus → Int × Bus
  | [], bus => (PX4_OK, bus)
  | c :: cmds, bus =>
    let r := send_cmd c bus
    if r.1 ≠ PX4_OK then (r.1, r.2) else send_cmds cmds r.2

/-- The loop of `SH1106::send_data`. `data` is the unsent remainder, so the source's
`n` is `data.length`. Each round sends at least one byte, hence `data.length` rounds of
fuel always suffice (`send_data_loop_fuel`). -/
def send_data_loop : Nat → List Nat → Bus → Int × Bus
  | 0, _, bus => (PX4_OK, bus)
  | fuel + 1, data, bus =>
    if data.length = 0 then (PX4_OK, bus)
    else
      let chunk := if data.length > 16 then 16 else data.length
      let r := transfer bus (0x40 :: data.take chunk)
      if r.1 ≠ PX4_OK then (r.1, r.2)
      else send_data_loop fuel (data.drop chunk) r.2

/-- The source's `SH1106::send_data`. -/
def send_data (data : List Nat) (bus : Bus) : Int × Bus :=
  send_data_loop data.length data bus

/-- The source's `SH1106::set_page_col`: three commands, return codes ignored. -/
def set_page_col (page col : Nat) (bus : Bus) : Bus :=
  let hw_col := (col + 2) % 256
  let b1 := (send_cmd (0xB0 ||| (page &&& 0x07)) bus).2
  let b2 := (send_cmd (0x00 ||| (hw_col &&& 0x0F)) b1).2
  (send_cmd (0x10 ||| ((hw_col >>> 4) &&& 0x0F)) b2).2

/-! ## Glyph lookup -/

/-- The value of a `char` holding byte `b`: with a signed `char`, bytes 0x80..0xFF are
negative. -/
def charVal (char_signed : Bool) (b : Nat) : Int :=
  if char_signed ∧ 128 ≤ b then (b : Int) - 256 else (b : Int)

/-- The statement `if (c < 0x20 || c > 0x7F) c = '?';`. -/
def fallback (c : Int) : Int :=
  if c < 0x20 ∨ c > 0x7F then 0x3F else c

/-- The table index `c - 0x20` of the expression `g_font6x8[c - 0x20]`. -/
def fontIndex (c : Int) : Int := c - 0x20

/-- The six bytes at `&g_font6x8[idx][0]`, where `g_font6x8 i j` is the table entry
`g_font6x8[i][j]`. -/
def glyphAt (g_font6x8 : Nat → Nat → Nat) (idx : Int) : List Nat :=
  (List.range 6).map (g_font6x8 idx.toNat)

/-- The glyph the drawing loops use for input byte `b`: fallback substitution, then
table lookup. -/
def glyph (char_signed : Bool) (g_font6x8 : Nat → Nat → Nat) (b : Nat) : List Nat :=
  glyphAt g_font6x8 (fontIndex (fallback (charVal char_signed b)))


/-! ## Display driver -/

/-- The driver object: the cursor fields `_col`, `_row` of `sh1106.hpp` and the bus it
inherits from `device::I2C`. -/
structure SH1106 where
  _col : Nat
  _row : Nat
  bus : Bus

/-- The bytes of a C string: everything before the first zero byte. -/
def cstr (s : List Nat) : List Nat := s.takeWhile (fun b => b ≠ 0)

/-- The call `memcpy(&buf[off], src, n)` on a buffer held as a list. -/
def memcpy (buf : List Nat) (off : Nat) (src : List Nat) (n : Nat) : List Nat :=
  buf.take off ++ src.take n ++ buf.drop (off + n)

/-- The bring-up sequence `init_seq` of `SH1106::init`. -/
def init_seq : List Nat :=
  [0xAE, 0xA1, 0xC8, 0xA8, 0x3F, 0xD5, 0x80, 0xD3, 0x00, 0xDB, 0x40, 0x81, 0xCF,
   0xAD, 0x8B, 0x40, 0xDA, 0x12, 0xD9, 0xF1, 0xA4, 0xA6, 0xAF]

/-- The source's `SH1106::set_cursor`. -/
def set_cursor (col row : Nat) (d : SH1106) : SH1106 :=
  { d with _col := col, _row := row }

/-- One round of the `for (page ...)` loop of `SH1106::clear`. -/
def clear_page (bus : Bus) (page : Nat) : Bus :=
  (send_data (List.replicate 128 0) (set_page_col page 0 bus)).2

/-- The source's `SH1106::clear`: pages 0..7, then the cursor goes to (0,0). -/
def clear (d : SH1106) : SH1106 :=
  set_cursor 0 0 { d with bus := (List.range 8).foldl clear_page d.bus }

/-- The source's `SH1106::contrast`. -/
def contrast (c : Nat) (d : SH1106) : SH1106 :=
  { d with bus := (send_cmds [CMD_SET_CONTRAST, c] d.bus).2 }

/-- The source's `SH1106::init`. `i2c_init` is the code returned by the base class call
`I2C::init()`, which is outside this repository. -/
def init (i2c_init : Int) (d : SH1106) : Int × SH1106 :=
  if i2c_init ≠ PX4_OK then (i2c_init, d)
  else
    let r := send_cmds init_seq d.bus
    if r.1 ≠ PX4_OK then (r.1, { d with bus := r.2 })
    else (PX4_OK, set_cursor 0 0 (clear { d with bus := r.2 }))

/-- The `while (*s)` loop of `SH1106::print`. `break` returns the current state. -/
def print_loop (char_signed : Bool) (g_font6x8 : Nat → Nat → Nat) :
    List Nat → SH1106 → SH1106
  | [], d => d
  | b :: s, d =>
    if b = 0 then d
    else if charVal char_signed b = 10 then
      let d1 : SH1106 := { d with _row := (d._row + 1) % 256, _col := 0 }
      if d1._row ≥ 8 then d1 else print_loop char_signed g_font6x8 s d1
    else
      let ch := glyph char_signed g_font6x8 b
      let bus1 := set_page_col d._row ((d._col * 6) % 256) d.bus
      let bus2 := (send_data ch bus1).2
      let d2 : SH1106 := { d with bus := bus2, _col := (d._col + 1) % 256 }
      if d2._col ≥ 21 then
        let d3 : SH1106 := { d2 with _col := 0, _row := (d2._row + 1) % 256 }
        if d3._row ≥ 8 then d3 else print_loop char_signed g_font6x8 s d3
      else print_loop char_signed g_font6x8 s d2

/-- The source's `SH1106::print`. -/
def print (char_signed : Bool) (g_font6x8 : Nat → Nat → Nat) (s : List Nat)
    (d : SH1106) : SH1106 :=
  print_loop char_signed g_font6x8 s d

/-- The `while (*s && x < 21)` loop of `SH1106::print_line`: returns the filled buffer.
The counter `x` never passes 21, so its `uint8_t` increment cannot wrap. -/
def print_line_loop (char_signed : Bool) (g_font6x8 : Nat → Nat → Nat) :
    List Nat → Nat → List Nat → List Nat
  | [], _, buf => buf
  | b :: s, x, buf =>
    if b ≠ 0 ∧ x < 21 then
      print_line_loop char_signed g_font6x8 s (x + 1)
        (memcpy buf (x * 6) (glyph char_signed g_font6x8 b) 6)
    else buf

/-- The 128-byte buffer `buf` of `SH1106::print_line` as it is handed to `send_data`. -/
def print_line_buf (char_signed : Bool) (g_font6x8 : Nat → Nat → Nat) (s : List Nat) :
    List Nat :=
  print_line_loop char_signed g_font6x8 s 0 (List.replicate 128 0)

/-- The source's `SH1106::print_line`. -/
def print_line (char_signed : Bool) (g_font6x8 : Nat → Nat → Nat) (row : Nat)
    (s : List Nat) (d : SH1106) : SH1106 :=
  let bus1 := set_page_col row 0 d.bus
  { d with bus := (send_data (print_line_buf char_signed g_font6x8 s) bus1).2 }

/-- The destination offsets `x * 6` of the `memcpy` calls made by the loop of
`SH1106::print_line`, in order: the control flow of `print_line_loop`, recording where each
glyph is copied. -/
def print_line_offsets : List Nat → Nat → List Nat
  | [], _ => []
  | b :: s, x =>
    if b ≠ 0 ∧ x < 21 then (x * 6) :: print_line_offsets s (x + 1) else []

/-- The five `static char prev_lineN[22]` buffers of `Run`. -/
structure PrevLines where
  prev_line1 : List Nat
  prev_line2 : List Nat
  prev_line3 : List Nat
  prev_line4 : List Nat
  prev_line5 : List Nat
  deriving DecidableEq

/-- The five local buffers `line1` .. `line5` of `Run` after formatting. -/
structure Lines where
  line1 : List Nat
  line2 : List Nat
  line3 : List Nat
  line4 : List Nat
  line5 : List Nat
  deriving DecidableEq

/-- One compare-and-draw block of `Run`:
`if (strcmp(line, prev) != 0) { print_line(row, line); strcpy(prev, line); }`.
`strcmp` compares the C-string contents and `strcpy` stores the C-string content. The
result is the display and the new content of `prev`. -/
def diff_draw {D : Type} (pl : Nat → List Nat → D → D) (row : Nat) (line prev : List Nat)
    (d : D) : D × List Nat :=
  if cstr line ≠ cstr prev then (pl row line d, cstr line) else (d, prev)

/-- The drawing part of `Sh1106Notify::Run` (source lines 145-175), for a display object
of type `D` whose `print_line` method is `pl`: the five compare-and-draw blocks (rows 0, 1,
0, 1, 1 as in the source), then the five unconditional `print_line` calls. -/
def Run_draw {D : Type} (pl : Nat → List Nat → D → D) (lines : Lines)
    (st : D × PrevLines) : D × PrevLines :=
  let r1 := diff_draw pl 0 lines.line1 st.2.prev_line1 st.1
  let r2 := diff_draw pl 1 lines.line2 st.2.prev_line2 r1.1
  let r3 := diff_draw pl 0 lines.line3 st.2.prev_line3 r2.1
  let r4 := diff_draw pl 1 lines.line4 st.2.prev_line4 r3.1
  let r5 := diff_draw pl 1 lines.line5 st.2.prev_line5 r4.1
  let d6 := pl 0 lines.line1 r5.1
  let d7 := pl 1 lines.line2 d6
  let d8 := pl 2 lines.line3 d7
  let d9 := pl 3 lines.line4 d8
  (pl 4 lines.line5 d9, ⟨r1.2, r2.2, r3.2, r4.2, r5.2⟩)

/-- The source's `Sh1106Notify::Run` from the formatted lines on: `should_exit` is the
result of `should_exit()`; the display is any object with a `print_line` method. -/
def Run {D : Type} (pl : Nat → List Nat → D → D) (should_exit : Bool) (lines : Lines)
    (st : D × PrevLines) : D × PrevLines :=
  if should_exit then st else Run_draw pl lines st

/-- A display that only records the `print_line` calls it receives, oldest first. -/
def record_print_line (row : Nat) (s : List Nat) (calls : List (Nat × List Nat)) :
    List (Nat × List Nat) :=
  calls ++ [(row, cstr s)]

/-- The zero-initialised `prev_line` buffers before the first tick. -/
def PrevLines.initial : PrevLines := ⟨[], [], [], [], []⟩

/-! ## Status formatting (`Sh1106Notify::Run`, GPS line) -/

/-- The bytes of an ASCII string literal. -/
def ascii (s : String) : List Nat := s.toList.map Char.toNat

/-- The C library conversion `%u`: the decimal digits of `n`, most significant first, no
padding. -/
def fmt_u (n : Nat) : List Nat := (Nat.toDigits 10 n).map Char.toNat

/-- The C library call `snprintf(buf, size, ...)` seen from the buffer: of the formatted
text `out`, the first `size - 1` characters are stored (a terminator follows). -/
def snprintf (size : Nat) (out : List Nat) : List Nat := out.take (size - 1)

/-- The `fix` label of `Run` (source lines 126-130), from `_gps.fix_type`. -/
def gps_fix (fix_type : Nat) : List Nat :=
  if fix_type ≥ 5 then ascii "RTK"
  else if fix_type = 4 then ascii "DGPS"
  else if fix_type = 3 then ascii "3D"
  else if fix_type = 2 then ascii "2D"
  else ascii "NOFIX"

/-- The content of `line3` after
`snprintf(line3, sizeof(line3), "GPS: %s Sats:%u", fix, (unsigned)_gps.satellites_used)`,
with `sizeof(line3) = 22`; the cast to `unsigned` is the reduction modulo 2^32. -/
def gps_line (fix_type satellites_used : Nat) : List Nat :=
  snprintf 22
    (ascii "GPS: " ++ gps_fix fix_type ++ ascii " Sats:" ++ fmt_u (satellites_used % 2 ^ 32))

/-- A call of one of the public member functions of `SH1106`, with its arguments. For
`init` the argument is the code returned by the base class `I2C::init()`. -/
inductive Op where
  | init (i2c_init : Int)
  | clear
  | contrast (c : Nat)
  | set_cursor (col row : Nat)
  | print (s : List Nat)
  | print_line (row : Nat) (s : List Nat)

/-- The driver after one public call. -/
def step (char_signed : Bool) (g_font6x8 : Nat → Nat → Nat) (d : SH1106) : Op → SH1106
  | Op.init i2c_init => (init i2c_init d).2
  | Op.clear => clear d
  | Op.contrast c => contrast c d
  | Op.set_cursor col row => set_cursor col row d
  | Op.print s => print char_signed g_font6x8 s d
  | Op.print_line row s => print_line char_signed g_font6x8 row s d

/-- The driver after a sequence of public calls, first call first. -/
def runOps (char_signed : Bool) (g_font6x8 : Nat → Nat → Nat) (ops : List Op)
    (d : SH1106) : SH1106 :=
  ops.foldl (step char_signed g_font6x8) d

/-- True for a `set_cursor` call whose arguments leave the documented ranges
(column 0..20, row 0..7). -/
def Op.badCursor : Op → Bool
  | Op.set_cursor col row => decide (20 < col ∨ 7 < row)
  | _ => false

/-- True for a `print` call. -/
def Op.isPrint : Op → Bool
  | Op.print _ => true
  | _ => false

/-- The three command bytes the addressing sequence sends for `(page, col)`. -/
def pageColBytes (page col : Nat) : List Nat :=
  [0xB0 ||| (page &&& 7), 0x00 ||| ((col + 2) &&& 0x0F), 0x10 ||| (((col + 2) >>> 4) &&& 0x0F)]

/-- What a public call hands back to its caller, per the declarations in `sh1106.hpp`:
`int init()` returns a status code; `clear`, `contrast`, `set_cursor`, `print` and
`print_line` are `void`. -/
def callResult (d : SH1106) : Op → Option Int
  | Op.init i2c_init => some (init i2c_init d).1
  | Op.clear => none
  | Op.contrast _ => none
  | Op.set_cursor _ _ => none
  | Op.print _ => none
  | Op.print_line _ _ => none

/-- True for an `init` call. -/
def Op.isInit : Op → Bool
  | Op.init _ => true
  | _ => false

/-! ## `print` as the specification words it -/

/-- The glyph draws of `print` as the specification words them, as triples
`(row, column, character)`: each non-newline character is drawn at the current cursor and
the column advances; a newline, or the column reaching 21, moves to column 0 of the next
row; once the row would exceed 7 nothing more is drawn. -/
def print_draws : List Nat → Nat → Nat → List (Nat × Nat × Nat)
  | [], _, _ => []
  | b :: s, col, row =>
    if b = 10 then
      if row + 1 > 7 then [] else print_draws s 0 (row + 1)
    else
      (row, col, b) ::
        (if col + 1 = 21 then
          if row + 1 > 7 then [] else print_draws s 0 (row + 1)
        else print_draws s (col + 1) row)

/-- The bus transfers of one glyph draw: the address sequence
`set_page_col(row, 6 * column)`, then one data transfer with the six glyph bytes. -/
def drawFrames (char_signed : Bool) (g_font6x8 : Nat → Nat → Nat) (dr : Nat × Nat × Nat) :
    List (List Nat) :=
  (pageColBytes dr.1 (6 * dr.2.1)).map (fun c => [0x00, c])
    ++ [0x40 :: glyph char_signed g_font6x8 dr.2.2]

/-! ## Vocabulary of the statements -/

/-- The payload of the `i`-th 16-byte chunk of a data buffer. -/
def chunk16 (data : List Nat) (i : Nat) : List Nat := (data.drop (16 * i)).take 16

/-- The framed data transfers `0x40 :: chunk` for the first `m` chunks of a buffer. -/
def dataFrames (data : List Nat) (m : Nat) : List (List Nat) :=
  (List.range m).map (fun i => 0x40 :: chunk16 data i)

/-- The framed command transfers `[0x00, c]` for a list of command bytes. -/
def cmdFrames (cmds : List Nat) : List (List Nat) := cmds.map (fun c => [0x00, c])

/-- A bus with the given history on which every transfer succeeds. -/
def okBus (log : List (List Nat)) : Bus := ⟨log, fun _ => PX4_OK⟩

/-- A fresh bus whose transfer number `k` fails with `code`; all others succeed. -/
def failAt (k : Nat) (code : Int) : Bus := ⟨[], fun j => if j = k then code else PX4_OK⟩

/-- The glyphs of a string laid side by side, six bytes per character. -/
def glyphRow (char_signed : Bool) (g_font6x8 : Nat → Nat → Nat) (cs : List Nat) :
    List Nat :=
  (cs.map (glyph char_signed g_font6x8)).flatten

/-- A fresh driver object on a bus where every transfer succeeds: cursor (0,0) as set by
the member initialisers `_col{0}`, `_row{0}`. -/
def freshDisplay : SH1106 := ⟨0, 0, okBus []⟩

/-- The glyph table used in concrete evaluations: entry `[i][j]` holds `i + j`. -/
def demoFont : Nat → Nat → Nat := fun i j => i + j

/-- Five one-character lines "A", "B", "C", "D", "E". -/
def linesABCDE : Lines := ⟨[0x41], [0x42], [0x43], [0x44], [0x45]⟩

/-- The same lines with slot 3 changed to "X". -/
def linesABXDE : Lines := ⟨[0x41], [0x42], [0x58], [0x44], [0x45]⟩

/-- The transfers of one full-page write: the address sequence for `(page, column 0)`, then
the 128-byte buffer in eight framed chunks. -/
def pageBlock (page : Nat) (buf : List Nat) : List (List Nat) :=
  cmdFrames (pageColBytes page 0) ++ dataFrames buf 8

/-- The bus traffic of a screen clear, written out: for page 0 to 7, the commands
`0xB0 | page`, `0x02`, `0x10`, then eight data transfers of `0x40` and sixteen zeros. -/
def clearTraffic : List (List Nat) :=
  ((List.range 8).map (fun page =>
      [[0x00, 0xB0 ||| page], [0x00, 0x02], [0x00, 0x10]]
        ++ List.replicate 8 (0x40 :: List.replicate 16 0))).flatten

/-! ## The display controller seen from the bus -/

/-- The addressing state and display memory of the controller: current page, current
column, and the byte stored at each (page, column). -/
structure Device where
  page : Nat
  col : Nat
  ram : Nat → Nat → Nat

/-- The controller's reaction to one command byte, for the three addressing commands of the
device protocol (page select 0xB0..0xB7, column low nibble 0x00..0x0F, column high nibble
0x10..0x1F); any other command leaves addressing and memory as they are. -/
def devCommand (dev : Device) (c : Nat) : Device :=
  if 0xB0 ≤ c ∧ c ≤ 0xB7 then { dev with page := c - 0xB0 }
  else if c ≤ 0x0F then { dev with col := (dev.col / 16) * 16 + c }
  else if 0x10 ≤ c ∧ c ≤ 0x1F then { dev with col := (c - 0x10) * 16 + dev.col % 16 }
  else dev

/-- The controller's reaction to one data byte: it is stored at the current page and
column, and the column advances by one. -/
def devWrite (dev : Device) (b : Nat) : Device :=
  { dev with
    ram := fun p x => if p = dev.page ∧ x = dev.col then b else dev.ram p x
    col := dev.col + 1 }

/-- The controller's reaction to one framed transfer: after the prefix 0x40 the bytes are
data, after the prefix 0x00 they are commands. -/
def devTransfer (dev : Device) : List Nat → Device
  | [] => dev
  | ctrl :: rest =>
    if ctrl = 0x40 then rest.foldl devWrite dev
    else if ctrl = 0x00 then rest.foldl devCommand dev
    else dev

/-- The controller after a sequence of transfers, oldest first. -/
def devRun (dev : Device) (transfers : List (List Nat)) : Device :=
  transfers.foldl devTransfer dev

/-- The five unconditional calls at the end of `Run`, as the recording display logs them. -/
def finalCalls (lines : Lines) : List (Nat × List Nat) :=
  [(0, cstr lines.line1), (1, cstr lines.line2), (2, cstr lines.line3),
   (3, cstr lines.line4), (4, cstr lines.line5)]

/-! ## Bus transport: lemmas -/

theorem transfer_log (bus : Bus) (bytes : List Nat) :
    (transfer bus bytes).2.log = bus.log ++ [bytes] := rfl

theorem transfer_ret (bus : Bus) (bytes : List Nat) :
    (transfer bus bytes).2.ret = bus.ret := rfl

theorem transfer_code (bus : Bus) (bytes : List Nat) :
    (transfer bus bytes).1 = bus.ret bus.log.length := rfl

theorem mask_low_nibble (c : Nat) : ((c + 2) % 256) &&& 0x0F = (c + 2) &&& 0x0F := by
  have h : ∀ x : Nat, x &&& 15 = x % 16 := fun x => Nat.and_pow_two_sub_one_eq_mod x 4
  rw [h, h]; omega

theorem mask_high_nibble (c : Nat) :
    (((c + 2) % 256) >>> 4) &&& 0x0F = ((c + 2) >>> 4) &&& 0x0F := by
  have h : ∀ x : Nat, x &&& 15 = x % 16 := fun x => Nat.and_pow_two_sub_one_eq_mod x 4
  rw [h, h, Nat.shiftRight_eq_div_pow, Nat.shiftRight_eq_div_pow]; omega

theorem set_page_col_eq (page col : Nat) (bus : Bus) :
    set_page_col page col bus
      = ⟨bus.log ++ cmdFrames (pageColBytes page col), bus.ret⟩ := by
  simp only [set_page_col, send_cmd, transfer, pageColBytes, cmdFrames, List.map,
    mask_low_nibble, mask_high_nibble, List.append_assoc, List.singleton_append,
    List.cons_append, List.nil_append]

/-- C2: `set_page_col(page, col)` issues exactly three command transfers, in this order:
`0xB0 | (page & 7)`, `0x00 | (hw & 0x0F)`, `0x10 | ((hw >> 4) & 0x0F)` with `hw = col + 2`;
the three bytes lie in 0xB0..0xB7, 0x00..0x0F and 0x10..0x1F; `set_page_col(0, 0)` emits
0xB0, 0x02, 0x10 and `set_page_col(3, 130)` emits 0xB3, 0x04, 0x18. -/
theorem C2_set_page_col_bytes (page col : Nat) (bus : Bus) :
    (set_page_col page col bus).log
        = bus.log ++ [[0x00, 0xB0 ||| (page &&& 7)],
                      [0x00, 0x00 ||| ((col + 2) &&& 0x0F)],
                      [0x00, 0x10 ||| (((col + 2) >>> 4) &&& 0x0F)]]
      ∧ (0xB0 ≤ 0xB0 ||| (page &&& 7) ∧ 0xB0 ||| (page &&& 7) ≤ 0xB7)
      ∧ 0x00 ||| ((col + 2) &&& 0x0F) ≤ 0x0F
      ∧ (0x10 ≤ 0x10 ||| (((col + 2) >>> 4) &&& 0x0F)
          ∧ 0x10 ||| (((col + 2) >>> 4) &&& 0x0F) ≤ 0x1F)
      ∧ (set_page_col 0 0 bus).log = bus.log ++ [[0x00, 0xB0], [0x00, 0x02], [0x00, 0x10]]
      ∧ (set_page_col 3 130 bus).log
          = bus.log ++ [[0x00, 0xB3], [0x00, 0x04], [0x00, 0x18]] := by
  have h7 : ∀ x : Nat, x &&& 7 = x % 8 := fun x => Nat.and_pow_two_sub_one_eq_mod x 3
  have h15 : ∀ x : Nat, x &&& 15 = x % 16 := fun x => Nat.and_pow_two_sub_one_eq_mod x 4
  have hB : ∀ k : Nat, k < 8 → 0xB0 ||| k = 0xB0 + k := by decide
  have hH : ∀ k : Nat, k < 16 → 0x10 ||| k = 0x10 + k := by decide
  have hp : page % 8 < 8 := Nat.mod_lt _ (by decide)
  have hl : (col + 2) % 16 < 16 := Nat.mod_lt _ (by decide)
  have hh : ((col + 2) >>> 4) % 16 < 16 := Nat.mod_lt _ (by decide)
  refine ⟨?_, ?_, ?_, ?_, ?_, ?_⟩
  · rw [set_page_col_eq]; rfl
  · rw [h7, hB _ hp]; omega
  · rw [Nat.zero_or, h15]; omega
  · rw [h15, hH _ hh]; omega
  · rw [set_page_col_eq]; rfl
  · rw [set_page_col_eq]; rfl

theorem send_data_loop_step (fuel : Nat) (data : List Nat) (bus : Bus) (h : data ≠ []) :
    send_data_loop (fuel + 1) data bus
      = if (transfer bus (0x40 :: data.take 16)).1 ≠ PX4_OK
          then transfer bus (0x40 :: data.take 16)
          else send_data_loop fuel (data.drop 16) (transfer bus (0x40 :: data.take 16)).2 := by
  have hlen : data.length ≠ 0 := fun h0 => h (List.length_eq_zero.mp h0)
  by_cases h16 : data.length > 16
  · simp only [send_data_loop, hlen, h16, if_true, if_false]
  · have hle : data.length ≤ 16 := Nat.le_of_not_gt h16
    simp only [send_data_loop, hlen, h16, if_false, List.take_of_length_le hle,
      List.take_of_length_le (Nat.le_refl _), List.drop_of_length_le hle,
      List.drop_of_length_le (Nat.le_refl _)]

theorem chunk16_drop (data : List Nat) (i : Nat) :
    chunk16 (data.drop 16) i = chunk16 data (i + 1) := by
  simp only [chunk16, List.drop_drop]
  congr 2; omega

theorem dataFrames_succ (data : List Nat) (m : Nat) :
    dataFrames data (m + 1) = (0x40 :: data.take 16) :: dataFrames (data.drop 16) m := by
  have h0 : chunk16 data 0 = data.take 16 := by simp [chunk16]
  simp only [dataFrames, List.range_succ_eq_map, List.map_cons, List.map_map, h0]
  congr 1
  apply List.map_congr_left
  intro i _
  simp only [Function.comp, chunk16_drop]

/-- The run of `send_data_loop` with enough fuel, when the first `m` transfers succeed:
either all chunks were sent, or transfer number `m` fails and is the last one issued. -/
theorem send_data_loop_run (fuel : Nat) : ∀ (data : List Nat) (bus : Bus) (m : Nat),
    data.length ≤ fuel →
    (∀ j, j < m → bus.ret (bus.log.length + j) = PX4_OK) →
    (m = (data.length + 15) / 16 →
        send_data_loop fuel data bus = (PX4_OK, ⟨bus.log ++ dataFrames data m, bus.ret⟩))
    ∧ (m < (data.length + 15) / 16 → bus.ret (bus.log.length + m) ≠ PX4_OK →
        send_data_loop fuel data bus
          = (bus.ret (bus.log.length + m), ⟨bus.log ++ dataFrames data (m + 1), bus.ret⟩)) := by
  induction fuel with
  | zero =>
    intro data bus m hf _
    have hnil : data = [] := List.length_eq_zero.mp (Nat.le_zero.mp hf)
    subst hnil
    constructor
    · intro hm
      simp only [List.length_nil] at hm
      have hm0 : m = 0 := by omega
      subst hm0
      simp [send_data_loop, dataFrames]
    · intro hm
      simp only [List.length_nil] at hm
      omega
  | succ fuel ih =>
    intro data bus m hf hok
    by_cases hnil : data = []
    · subst hnil
      constructor
      · intro hm
        simp only [List.length_nil] at hm
        have hm0 : m = 0 := by omega
        subst hm0
        simp [send_data_loop, dataFrames]
      · intro hm
        simp only [List.length_nil] at hm
        omega
    · have hpos : 0 < data.length := List.length_pos.mpr hnil
      rw [send_data_loop_step fuel data bus hnil]
      cases m with
      | zero =>
        constructor
        · intro hm; omega
        · intro _ hbad
          have hbad0 : bus.ret bus.log.length ≠ PX4_OK := by simpa using hbad
          simp only [transfer_code, hbad0, ne_eq, not_false_eq_true, if_true]
          rw [dataFrames_succ]
          simp [transfer, dataFrames]
      | succ m =>
        have h0 : bus.ret bus.log.length = PX4_OK := by simpa using hok 0 (Nat.succ_pos m)
        have hlen' : (data.drop 16).length ≤ fuel := by
          rw [List.length_drop]; omega
        have hcnt : ((data.drop 16).length + 15) / 16 + 1 = (data.length + 15) / 16 := by
          rw [List.length_drop]; omega
        have hok' : ∀ j, j < m →
            (transfer bus (0x40 :: data.take 16)).2.ret
              ((transfer bus (0x40 :: data.take 16)).2.log.length + j) = PX4_OK := by
          intro j hj
          have := hok (j + 1) (Nat.succ_lt_succ hj)
          simp only [transfer_ret, transfer_log, List.length_append, List.length_singleton]
          rw [Nat.add_assoc, Nat.add_comm 1 j]; exact this
        have hrec := ih (data.drop 16) (transfer bus (0x40 :: data.take 16)).2 m hlen' hok'
        simp only [transfer_code, h0, ne_eq, not_true_eq_false, if_false]
        constructor
        · intro hm
          rw [hrec.1 (by omega), dataFrames_succ]
          simp [transfer]
        · intro hm hbad
          have hbad' : (transfer bus (0x40 :: data.take 16)).2.ret
              ((transfer bus (0x40 :: data.take 16)).2.log.length + m) ≠ PX4_OK := by
            simp only [transfer_ret, transfer_log, List.length_append, List.length_singleton]
            rw [Nat.add_assoc, Nat.add_comm 1 m]; exact hbad
          rw [hrec.2 (by omega) hbad', dataFrames_succ data (m + 1)]
          simp [transfer, Nat.add_assoc, Nat.add_comm 1 m]

/-- Fuel beyond the buffer length changes nothing: `send_data_loop` never runs out. -/
theorem send_data_loop_fuel (f1 : Nat) : ∀ (f2 : Nat) (data : List Nat) (bus : Bus),
    data.length ≤ f1 → data.length ≤ f2 →
    send_data_loop f1 data bus = send_data_loop f2 data bus := by
  induction f1 with
  | zero =>
    intro f2 data bus h1 _
    have hnil : data = [] := List.length_eq_zero.mp (Nat.le_zero.mp h1)
    subst hnil
    cases f2 <;> simp [send_data_loop]
  | succ f1 ih =>
    intro f2 data bus h1 h2
    by_cases hnil : data = []
    · subst hnil
      cases f2 <;> simp [send_data_loop]
    · have hpos : 0 < data.length := List.length_pos.mpr hnil
      cases f2 with
      | zero => omega
      | succ f2 =>
        rw [send_data_loop_step f1 data bus hnil, send_data_loop_step f2 data bus hnil]
        have e := ih f2 (data.drop 16) (transfer bus (0x40 :: data.take 16)).2
          (by rw [List.length_drop]; omega) (by rw [List.length_drop]; omega)
        rw [e]

theorem chunk16_length (data : List Nat) (i : Nat) :
    (chunk16 data i).length = min 16 (data.length - 16 * i) := by
  simp [chunk16, List.length_take, List.length_drop]

theorem chunks_flatten (data : List Nat) (m : Nat) :
    ((List.range m).map (chunk16 data)).flatten = data.take (16 * m) := by
  induction m with
  | zero => simp
  | succ m ih =>
    rw [List.range_succ, List.map_append, List.flatten_append, ih, Nat.mul_succ,
      List.take_add]
    simp [chunk16]

theorem send_cmds_run : ∀ (cmds : List Nat) (bus : Bus) (k : Nat),
    (∀ j, j < k → bus.ret (bus.log.length + j) = PX4_OK) →
    (k = cmds.length → send_cmds cmds bus = (PX4_OK, ⟨bus.log ++ cmdFrames cmds, bus.ret⟩))
    ∧ (k < cmds.length → bus.ret (bus.log.length + k) ≠ PX4_OK →
        send_cmds cmds bus
          = (bus.ret (bus.log.length + k),
             ⟨bus.log ++ cmdFrames (cmds.take (k + 1)), bus.ret⟩)) := by
  intro cmds
  induction cmds with
  | nil =>
    intro bus k _
    constructor
    · intro _; simp [send_cmds, cmdFrames]
    · intro hk; simp at hk
  | cons c cmds ih =>
    intro bus k hok
    cases k with
    | zero =>
      constructor
      · intro hk; simp at hk
      · intro _ hbad
        have hbad0 : bus.ret bus.log.length ≠ PX4_OK := by simpa using hbad
        simp [send_cmds, send_cmd, transfer, hbad0, cmdFrames]
    | succ k =>
      have h0 : bus.ret bus.log.length = PX4_OK := by simpa using hok 0 (Nat.succ_pos k)
      have hok' : ∀ j, j < k →
          (send_cmd c bus).2.ret ((send_cmd c bus).2.log.length + j) = PX4_OK := by
        intro j hj
        have := hok (j + 1) (Nat.succ_lt_succ hj)
        simp only [send_cmd, transfer_ret, transfer_log, List.length_append,
          List.length_singleton]
        rw [Nat.add_assoc, Nat.add_comm 1 j]; exact this
      have hrec := ih (send_cmd c bus).2 k hok'
      have hstep : send_cmds (c :: cmds) bus = send_cmds cmds (send_cmd c bus).2 := by
        simp [send_cmds, send_cmd, transfer_code, h0]
      rw [hstep]
      constructor
      · intro hk
        rw [hrec.1 (by simpa using hk)]
        simp [send_cmd, transfer, cmdFrames]
      · intro hk hbad
        have hbad' : (send_cmd c bus).2.ret ((send_cmd c bus).2.log.length + k)
            ≠ PX4_OK := by
          simp only [send_cmd, transfer_ret, transfer_log, List.length_append,
            List.length_singleton]
          rw [Nat.add_assoc, Nat.add_comm 1 k]; exact hbad
        rw [hrec.2 (by simpa using hk) hbad']
        simp [send_cmd, transfer, cmdFrames, Nat.add_assoc, Nat.add_comm 1 k]

theorem allOk_first (bus : Bus) (h : bus.allOk) (k : Nat) :
    ∀ j, j < k → bus.ret (bus.log.length + j) = PX4_OK :=
  fun j _ => h (bus.log.length + j) (Nat.le_add_right _ _)

theorem send_data_ok (data : List Nat) (bus : Bus) (h : bus.allOk) :
    send_data data bus
      = (PX4_OK, ⟨bus.log ++ dataFrames data ((data.length + 15) / 16), bus.ret⟩) :=
  (send_data_loop_run data.length data bus _ (Nat.le_refl _) (allOk_first bus h _)).1 rfl

theorem send_cmds_ok (cmds : List Nat) (bus : Bus) (h : bus.allOk) :
    send_cmds cmds bus = (PX4_OK, ⟨bus.log ++ cmdFrames cmds, bus.ret⟩) :=
  (send_cmds_run cmds bus _ (allOk_first bus h _)).1 rfl

theorem okBus_allOk (log : List (List Nat)) : (okBus log).allOk := fun _ _ => rfl

/-- C3: on a bus whose transfers all succeed, `send_data` on `n` bytes returns success after
exactly `ceil(n/16)` transfers; each is `0x40` followed by 1 to 16 payload bytes, all but
possibly the last carry 16, and the payloads concatenated in order are the input. -/
theorem C3_send_data_chunks (data : List Nat) (bus : Bus) (hok : bus.allOk) :
    (send_data data bus).1 = PX4_OK
    ∧ ∃ payloads : List (List Nat),
        (send_data data bus).2.log = bus.log ++ payloads.map (fun p => 0x40 :: p)
        ∧ payloads.length = (data.length + 15) / 16
        ∧ (data.length = 0 → payloads = [])
        ∧ (∀ p, p ∈ payloads → 1 ≤ p.length ∧ p.length ≤ 16)
        ∧ (∀ i, i + 1 < payloads.length → (payloads.getD i []).length = 16)
        ∧ payloads.flatten = data := by
  rw [send_data_ok data bus hok]
  refine ⟨rfl, (List.range ((data.length + 15) / 16)).map (chunk16 data), ?_, ?_, ?_, ?_, ?_, ?_⟩
  · simp [dataFrames, List.map_map, Function.comp]
  · simp
  · intro h0; simp [h0]
  · intro p hp
    obtain ⟨i, hi, rfl⟩ := List.mem_map.mp hp
    have hi' := List.mem_range.mp hi
    rw [chunk16_length]; omega
  · intro i hi
    simp only [List.length_map, List.length_range] at hi
    rw [List.getD_eq_getElem _ _ (by simp; omega)]
    simp only [List.getElem_map, List.getElem_range, chunk16_length]
    omega
  · rw [chunks_flatten, List.take_of_length_le (by omega)]

/-- C3 at a 40-byte buffer on an always-succeeding bus. -/
theorem C3_send_data_chunks_witness :
    (send_data (List.replicate 40 7) (okBus [])).1 = PX4_OK
    ∧ ∃ payloads : List (List Nat),
        (send_data (List.replicate 40 7) (okBus [])).2.log
            = (okBus []).log ++ payloads.map (fun p => 0x40 :: p)
        ∧ payloads.length = ((List.replicate 40 7).length + 15) / 16
        ∧ ((List.replicate 40 7).length = 0 → payloads = [])
        ∧ (∀ p, p ∈ payloads → 1 ≤ p.length ∧ p.length ≤ 16)
        ∧ (∀ i, i + 1 < payloads.length → (payloads.getD i []).length = 16)
        ∧ payloads.flatten = List.replicate 40 7 :=
  C3_send_data_chunks (List.replicate 40 7) (okBus []) (okBus_allOk [])

/-- C4: if transfer number `k` (counting from 0) of a `send_cmds` or `send_data` call is the
first to fail, the call returns that transfer's code and the failing transfer is the last one
issued; `send_cmds` frames each command byte `c` as its own transfer `[0x00, c]`, in list
order, and `send_data` frames each 16-byte chunk as `0x40 :: chunk`. -/
theorem C4_fail_fast (cmds data : List Nat) (bus : Bus) (k : Nat)
    (hfirst : ∀ j, j < k → bus.ret (bus.log.length + j) = PX4_OK) :
    (k < cmds.length → bus.ret (bus.log.length + k) ≠ PX4_OK →
        send_cmds cmds bus
          = (bus.ret (bus.log.length + k),
             ⟨bus.log ++ (cmds.take (k + 1)).map (fun c => [0x00, c]), bus.ret⟩))
    ∧ (k = cmds.length →
        send_cmds cmds bus = (PX4_OK, ⟨bus.log ++ cmds.map (fun c => [0x00, c]), bus.ret⟩))
    ∧ (k < (data.length + 15) / 16 → bus.ret (bus.log.length + k) ≠ PX4_OK →
        send_data data bus
          = (bus.ret (bus.log.length + k),
             ⟨bus.log ++ (List.range (k + 1)).map
                (fun i => 0x40 :: (data.drop (16 * i)).take 16), bus.ret⟩)) :=
  ⟨(send_cmds_run cmds bus k hfirst).2, (send_cmds_run cmds bus k hfirst).1,
   (send_data_loop_run data.length data bus k (Nat.le_refl _) hfirst).2⟩

/-- C4 at a bus whose second transfer fails with code -1. -/
theorem C4_fail_fast_witness :
    send_cmds [0xAE, 0xA1, 0xC8] (failAt 1 (-1))
        = (-1, ⟨[[0x00, 0xAE], [0x00, 0xA1]], (failAt 1 (-1)).ret⟩)
    ∧ send_data (List.replicate 40 7) (failAt 1 (-1))
        = (-1, ⟨[0x40 :: List.replicate 16 7, 0x40 :: List.replicate 16 7],
                (failAt 1 (-1)).ret⟩) :=
  have h := C4_fail_fast [0xAE, 0xA1, 0xC8] (List.replicate 40 7) (failAt 1 (-1)) 1
    (by intro j hj; interval_cases j; rfl)
  ⟨h.1 (by decide) (by decide), h.2.2 (by decide) (by decide)⟩

/-! ## `init` -/

/-- C5: if command transfer number `k` of the bring-up sequence is the first to fail,
`init()` returns that transfer's non-OK code and the failing transfer is the last transfer of
any kind: the log holds the first `k + 1` bring-up commands and nothing else (no later
command, no addressing command or data of the screen clear). The sequence has 23 commands. -/
theorem C5_init_fail_fast (d : SH1106) (k : Nat) (hk : k < init_seq.length)
    (hfirst : ∀ j, j < k → d.bus.ret (d.bus.log.length + j) = PX4_OK)
    (hfail : d.bus.ret (d.bus.log.length + k) ≠ PX4_OK) :
    init PX4_OK d
        = (d.bus.ret (d.bus.log.length + k),
           { d with bus := ⟨d.bus.log ++ (init_seq.take (k + 1)).map (fun c => [0x00, c]),
                            d.bus.ret⟩ })
    ∧ (init PX4_OK d).1 ≠ PX4_OK
    ∧ (init PX4_OK d).2.bus.log.length = d.bus.log.length + (k + 1)
    ∧ init_seq.length = 23 := by
  have hrun := (send_cmds_run init_seq d.bus k hfirst).2 hk hfail
  have heq : init PX4_OK d
      = (d.bus.ret (d.bus.log.length + k),
         { d with bus := ⟨d.bus.log ++ (init_seq.take (k + 1)).map (fun c => [0x00, c]),
                          d.bus.ret⟩ }) := by
    simp only [init, ne_eq, not_true_eq_false, if_false, hrun, hfail, not_false_eq_true,
      if_true, cmdFrames]
  refine ⟨heq, ?_, ?_, rfl⟩
  · rw [heq]; exact hfail
  · rw [heq]
    have h23 : init_seq.length = 23 := rfl
    simp only [List.length_append, List.length_map, List.length_take]
    omega

/-- C5 at a fresh bus whose third transfer fails with code -1. -/
theorem C5_init_fail_fast_witness :
    init PX4_OK ⟨0, 0, failAt 2 (-1)⟩
        = (-1, ⟨0, 0, ⟨[[0x00, 0xAE], [0x00, 0xA1], [0x00, 0xC8]], (failAt 2 (-1)).ret⟩⟩)
    ∧ (init PX4_OK ⟨0, 0, failAt 2 (-1)⟩).1 ≠ PX4_OK
    ∧ (init PX4_OK ⟨0, 0, failAt 2 (-1)⟩).2.bus.log.length = 0 + (2 + 1)
    ∧ init_seq.length = 23 :=
  C5_init_fail_fast ⟨0, 0, failAt 2 (-1)⟩ 2 (by decide)
    (by intro j hj; interval_cases j <;> rfl) (by decide)

/-! ## `print_line` -/

theorem glyph_length (char_signed : Bool) (g_font6x8 : Nat → Nat → Nat) (b : Nat) :
    (glyph char_signed g_font6x8 b).length = 6 := by
  simp [glyph, glyphAt]

theorem glyphRow_length (char_signed : Bool) (g_font6x8 : Nat → Nat → Nat) (cs : List Nat) :
    (glyphRow char_signed g_font6x8 cs).length = 6 * cs.length := by
  induction cs with
  | nil => rfl
  | cons b cs ih =>
    have hcons : glyphRow char_signed g_font6x8 (b :: cs)
        = glyph char_signed g_font6x8 b ++ glyphRow char_signed g_font6x8 cs := by
      simp [glyphRow]
    rw [hcons, List.length_append, ih, glyph_length, List.length_cons]; omega

theorem glyphRow_cons (char_signed : Bool) (g_font6x8 : Nat → Nat → Nat) (b : Nat)
    (cs : List Nat) :
    glyphRow char_signed g_font6x8 (b :: cs)
      = glyph char_signed g_font6x8 b ++ glyphRow char_signed g_font6x8 cs := by
  simp [glyphRow]

theorem cstr_cons_ne (b : Nat) (s : List Nat) (h : b ≠ 0) : cstr (b :: s) = b :: cstr s := by
  simp [cstr, h]

theorem cstr_cons_zero (s : List Nat) : cstr (0 :: s) = [] := by
  simp [cstr]

theorem memcpy_glyph (pre post g : List Nat) (x : Nat) (hpre : pre.length = x * 6)
    (hg : g.length = 6) :
    memcpy (pre ++ post) (x * 6) g 6 = (pre ++ g) ++ post.drop 6 := by
  unfold memcpy
  rw [List.take_left' hpre, List.take_of_length_le (Nat.le_of_eq hg), ← hpre,
    List.drop_append]

/-- The buffer after the copy loop: what was already written, then the glyphs of at most
`21 - x` further characters, then the untouched rest of the buffer. -/
theorem print_line_loop_eq (char_signed : Bool) (g_font6x8 : Nat → Nat → Nat) :
    ∀ (s : List Nat) (x : Nat) (pre post : List Nat), pre.length = x * 6 →
      print_line_loop char_signed g_font6x8 s x (pre ++ post)
        = pre ++ glyphRow char_signed g_font6x8 ((cstr s).take (21 - x))
            ++ post.drop (6 * min (cstr s).length (21 - x)) := by
  intro s
  induction s with
  | nil => intro x pre post _; simp [print_line_loop, cstr, glyphRow]
  | cons b s ih =>
    intro x pre post hpre
    by_cases hb : b = 0
    · subst hb
      simp [print_line_loop, cstr_cons_zero, glyphRow]
    · by_cases hx : x < 21
      · have hcond : b ≠ 0 ∧ x < 21 := ⟨hb, hx⟩
        have h21 : 21 - x = (21 - (x + 1)) + 1 := by omega
        rw [print_line_loop, if_pos hcond]
        rw [memcpy_glyph pre post _ x hpre (glyph_length _ _ _),
          ih (x + 1) (pre ++ glyph char_signed g_font6x8 b) (post.drop 6)
            (by rw [List.length_append, hpre, glyph_length]; omega),
          cstr_cons_ne b s hb, h21, List.take_succ_cons, glyphRow_cons, List.drop_drop,
          List.length_cons, Nat.succ_min_succ]
        simp only [List.append_assoc]
        rw [Nat.mul_succ, Nat.add_comm 6]
      · have hcond : ¬ (b ≠ 0 ∧ x < 21) := fun h => hx h.2
        have h0 : 21 - x = 0 := by omega
        simp [print_line_loop, hcond, h0, glyphRow]

theorem print_line_buf_eq (char_signed : Bool) (g_font6x8 : Nat → Nat → Nat) (s : List Nat) :
    print_line_buf char_signed g_font6x8 s
      = glyphRow char_signed g_font6x8 ((cstr s).take 21)
          ++ List.replicate (128 - 6 * min (cstr s).length 21) 0 := by
  have h := print_line_loop_eq char_signed g_font6x8 s 0 [] (List.replicate 128 0) rfl
  rw [List.nil_append, List.nil_append, List.drop_replicate] at h
  exact h

theorem print_line_buf_length (char_signed : Bool) (g_font6x8 : Nat → Nat → Nat)
    (s : List Nat) : (print_line_buf char_signed g_font6x8 s).length = 128 := by
  rw [print_line_buf_eq, List.length_append, glyphRow_length, List.length_replicate,
    List.length_take]
  omega

theorem glyphRow_getD (char_signed : Bool) (g_font6x8 : Nat → Nat → Nat) :
    ∀ (cs rest : List Nat) (i j : Nat), i < cs.length → j < 6 →
      (glyphRow char_signed g_font6x8 cs ++ rest).getD (6 * i + j) 0
        = (glyph char_signed g_font6x8 (cs.getD i 0)).getD j 0 := by
  intro cs
  induction cs with
  | nil => intro rest i j hi _; simp at hi
  | cons b cs ih =>
    intro rest i j hi hj
    rw [glyphRow_cons, List.append_assoc]
    cases i with
    | zero =>
      rw [List.getD_append _ _ _ _ (by rw [glyph_length]; omega)]
      simp
    | succ i =>
      rw [List.getD_append_right _ _ _ _ (by rw [glyph_length]; omega), glyph_length]
      have hidx : 6 * (i + 1) + j - 6 = 6 * i + j := by omega
      rw [hidx, ih rest i j (by simpa using hi) hj]
      simp

theorem replicate_zero_getD (k q : Nat) : (List.replicate k 0).getD q 0 = 0 := by
  rw [List.getD_eq_getElem?_getD, List.getElem?_replicate]
  split <;> rfl

theorem cstr_idem (s : List Nat) : cstr (cstr s) = cstr s := by
  induction s with
  | nil => rfl
  | cons b s ih =>
    by_cases hb : b = 0
    · subst hb; simp [cstr_cons_zero]; rfl
    · rw [cstr_cons_ne b s hb, cstr_cons_ne b _ hb, ih]

theorem cstr_take (s : List Nat) (n : Nat) : cstr ((cstr s).take n) = (cstr s).take n := by
  induction s generalizing n with
  | nil => simp [cstr]
  | cons b s ih =>
    by_cases hb : b = 0
    · subst hb; simp [cstr_cons_zero]; rfl
    · rw [cstr_cons_ne b s hb]
      cases n with
      | zero => simp [cstr]
      | succ n => rw [List.take_succ_cons, cstr_cons_ne b _ hb, ih]

theorem allOk_extend (bus : Bus) (h : bus.allOk) (more : List (List Nat)) :
    (Bus.mk (bus.log ++ more) bus.ret).allOk := by
  intro k hk
  apply h k
  simp only [List.length_append] at hk
  omega

theorem print_line_eq (char_signed : Bool) (g_font6x8 : Nat → Nat → Nat) (row : Nat)
    (s : List Nat) (d : SH1106) (hok : d.bus.allOk) :
    print_line char_signed g_font6x8 row s d
      = { d with bus := ⟨d.bus.log ++ cmdFrames (pageColBytes row 0)
                            ++ dataFrames (print_line_buf char_signed g_font6x8 s) 8,
                          d.bus.ret⟩ } := by
  unfold print_line
  simp only [set_page_col_eq]
  rw [send_data_ok _ _ (allOk_extend d.bus hok _), print_line_buf_length]

theorem print_line_buf_congr (char_signed : Bool) (g_font6x8 : Nat → Nat → Nat)
    (s t : List Nat) (h : (cstr t).take 21 = (cstr s).take 21) :
    print_line_buf char_signed g_font6x8 t = print_line_buf char_signed g_font6x8 s := by
  have hl : min (cstr t).length 21 = min (cstr s).length 21 := by
    have := congrArg List.length h
    simpa [List.length_take, Nat.min_comm] using this
  rw [print_line_buf_eq, print_line_buf_eq, h, hl]

/-- C1: on a bus whose transfers all succeed, `print_line(row, s)` sends the three addressing
commands and then exactly 128 data payload bytes (eight transfers of `0x40` plus 16 bytes).
Payload bytes `6*i .. 6*i+5` are the glyph of character `i` of `s` for each
`i < min(length(s), 21)`; every other byte, bytes 126 and 127 among them, is zero; and a
string that agrees with `s` on the first 21 characters gives the same output. -/
theorem C1_print_line_output (char_signed : Bool) (g_font6x8 : Nat → Nat → Nat) (row : Nat)
    (s : List Nat) (d : SH1106) (hok : d.bus.allOk) :
    ∃ buf : List Nat,
      (print_line char_signed g_font6x8 row s d).bus.log
          = d.bus.log ++ (pageColBytes row 0).map (fun c => [0x00, c])
              ++ (List.range 8).map (fun i => 0x40 :: (buf.drop (16 * i)).take 16)
      ∧ buf.length = 128
      ∧ ((List.range 8).map (fun i => (buf.drop (16 * i)).take 16)).flatten = buf
      ∧ (∀ i, i < min (cstr s).length 21 → ∀ j, j < 6 →
          buf.getD (6 * i + j) 0
            = (glyph char_signed g_font6x8 ((cstr s).getD i 0)).getD j 0)
      ∧ (∀ p, 6 * min (cstr s).length 21 ≤ p → buf.getD p 0 = 0)
      ∧ buf.getD 126 0 = 0 ∧ buf.getD 127 0 = 0
      ∧ (∀ t : List Nat, (cstr t).take 21 = (cstr s).take 21 →
          print_line char_signed g_font6x8 row t d
            = print_line char_signed g_font6x8 row s d) := by
  have hlen := print_line_buf_length char_signed g_font6x8 s
  have hrow : (glyphRow char_signed g_font6x8 ((cstr s).take 21)).length
      = 6 * min (cstr s).length 21 := by
    rw [glyphRow_length, List.length_take, Nat.min_comm]
  have hzero : ∀ p, 6 * min (cstr s).length 21 ≤ p →
      (print_line_buf char_signed g_font6x8 s).getD p 0 = 0 := by
    intro p hp
    rw [print_line_buf_eq, List.getD_append_right _ _ _ _ (by rw [hrow]; exact hp)]
    exact replicate_zero_getD _ _
  refine ⟨print_line_buf char_signed g_font6x8 s, ?_, hlen, ?_, ?_, hzero, ?_, ?_, ?_⟩
  · rw [print_line_eq _ _ _ _ _ hok]; rfl
  · have h := chunks_flatten (print_line_buf char_signed g_font6x8 s) 8
    rw [List.take_of_length_le (by rw [hlen])] at h
    exact h
  · intro i hi j hj
    have hi' : i < ((cstr s).take 21).length := by
      rw [List.length_take, Nat.min_comm]; exact hi
    rw [print_line_buf_eq, glyphRow_getD _ _ _ _ i j hi' hj]
    congr 2
    rw [List.getD_eq_getElem?_getD, List.getD_eq_getElem?_getD,
      List.getElem?_take_of_lt (by omega)]
  · exact hzero 126 (by omega)
  · exact hzero 127 (by omega)
  · intro t ht
    unfold print_line
    rw [print_line_buf_congr _ _ s t ht]

/-- C1 at a 3-character string on a fresh always-succeeding bus. -/
theorem C1_print_line_output_witness :
    ∃ buf : List Nat,
      (print_line true (fun i j => i + j) 2 [0x41, 0x42, 0x43] ⟨0, 0, okBus []⟩).bus.log
          = (okBus []).log ++ (pageColBytes 2 0).map (fun c => [0x00, c])
              ++ (List.range 8).map (fun i => 0x40 :: (buf.drop (16 * i)).take 16)
      ∧ buf.length = 128
      ∧ ((List.range 8).map (fun i => (buf.drop (16 * i)).take 16)).flatten = buf
      ∧ (∀ i, i < min (cstr [0x41, 0x42, 0x43]).length 21 → ∀ j, j < 6 →
          buf.getD (6 * i + j) 0
            = (glyph true (fun i j => i + j) ((cstr [0x41, 0x42, 0x43]).getD i 0)).getD j 0)
      ∧ (∀ p, 6 * min (cstr [0x41, 0x42, 0x43]).length 21 ≤ p → buf.getD p 0 = 0)
      ∧ buf.getD 126 0 = 0 ∧ buf.getD 127 0 = 0
      ∧ (∀ t : List Nat, (cstr t).take 21 = (cstr [0x41, 0x42, 0x43]).take 21 →
          print_line true (fun i j => i + j) 2 t ⟨0, 0, okBus []⟩
            = print_line true (fun i j => i + j) 2 [0x41, 0x42, 0x43] ⟨0, 0, okBus []⟩) :=
  C1_print_line_output true (fun i j => i + j) 2 [0x41, 0x42, 0x43] ⟨0, 0, okBus []⟩
    (okBus_allOk [])

/-! ## Refresh tick -/

theorem diff_draw_prev {D : Type} (pl : Nat → List Nat → D → D) (row : Nat)
    (line prev : List Nat) (d : D) :
    cstr (diff_draw pl row line prev d).2 = cstr line := by
  unfold diff_draw
  split_ifs with h
  · exact cstr_idem line
  · exact (not_not.mp h).symm

theorem diff_draw_same {D : Type} (pl : Nat → List Nat → D → D) (row : Nat)
    (line prev : List Nat) (d : D) (h : cstr prev = cstr line) :
    diff_draw pl row line prev d = (d, prev) := by
  simp [diff_draw, h]

theorem Run_draw_prev {D : Type} (pl : Nat → List Nat → D → D) (lines : Lines)
    (st : D × PrevLines) :
    cstr (Run_draw pl lines st).2.prev_line1 = cstr lines.line1
    ∧ cstr (Run_draw pl lines st).2.prev_line2 = cstr lines.line2
    ∧ cstr (Run_draw pl lines st).2.prev_line3 = cstr lines.line3
    ∧ cstr (Run_draw pl lines st).2.prev_line4 = cstr lines.line4
    ∧ cstr (Run_draw pl lines st).2.prev_line5 = cstr lines.line5 :=
  ⟨diff_draw_prev _ _ _ _ _, diff_draw_prev _ _ _ _ _, diff_draw_prev _ _ _ _ _,
   diff_draw_prev _ _ _ _ _, diff_draw_prev _ _ _ _ _⟩

/-- The calls of a tick whose stored previous lines already equal the current lines: the
five unconditional `print_line` calls of source lines 171-175. -/
theorem Run_draw_same {D : Type} (pl : Nat → List Nat → D → D) (lines : Lines)
    (st : D × PrevLines)
    (h1 : cstr st.2.prev_line1 = cstr lines.line1)
    (h2 : cstr st.2.prev_line2 = cstr lines.line2)
    (h3 : cstr st.2.prev_line3 = cstr lines.line3)
    (h4 : cstr st.2.prev_line4 = cstr lines.line4)
    (h5 : cstr st.2.prev_line5 = cstr lines.line5) :
    Run_draw pl lines st
      = (pl 4 lines.line5 (pl 3 lines.line4 (pl 2 lines.line3
          (pl 1 lines.line2 (pl 0 lines.line1 st.1)))), st.2) := by
  simp only [Run_draw, diff_draw_same _ _ _ _ _ h1, diff_draw_same _ _ _ _ _ h2,
    diff_draw_same _ _ _ _ _ h3, diff_draw_same _ _ _ _ _ h4, diff_draw_same _ _ _ _ _ h5]

/-- C6 (the code at the claim): for every five lines and every starting state, the second of
two consecutive ticks with identical lines still issues five `print_line` calls, rows 0 to 4
in order, instead of none. -/
theorem C6_second_tick_redraws (lines : Lines) (calls : List (Nat × List Nat))
    (prev : PrevLines) :
    (Run record_print_line false lines (Run record_print_line false lines (calls, prev))).1
      = (Run record_print_line false lines (calls, prev)).1
          ++ [(0, cstr lines.line1), (1, cstr lines.line2), (2, cstr lines.line3),
              (3, cstr lines.line4), (4, cstr lines.line5)] := by
  have hp := Run_draw_prev record_print_line lines (calls, prev)
  simp only [Run, Bool.false_eq_true, if_false]
  rw [Run_draw_same record_print_line lines _ hp.1 hp.2.1 hp.2.2.1 hp.2.2.2.1 hp.2.2.2.2]
  simp [record_print_line]

/-- C7 (the code at the claim): after a tick with lines "A".."E", a tick whose only change is
slot 3 = "X" issues six `print_line` calls, the first of them to row 0, instead of the single
call `print_line(2, "X")`. -/
theorem C7_one_change_six_calls :
    (Run record_print_line false linesABXDE
        (([] : List (Nat × List Nat)),
         (Run record_print_line false linesABCDE ([], PrevLines.initial)).2)).1
      = [(0, [0x58]), (0, [0x41]), (1, [0x42]), (2, [0x58]), (3, [0x44]), (4, [0x45])] := by
  decide

/-! ## Cursor -/

theorem print_loop_col (char_signed : Bool) (g_font6x8 : Nat → Nat → Nat) :
    ∀ (s : List Nat) (d : SH1106), d._col ≤ 20 →
      (print_loop char_signed g_font6x8 s d)._col ≤ 20 := by
  intro s
  induction s with
  | nil => intro d h; simpa [print_loop] using h
  | cons b s ih =>
    intro d h
    simp only [print_loop]
    split_ifs with h0 hnl hr hc hr2
    · exact h
    · exact Nat.zero_le _
    · exact ih _ (Nat.zero_le _)
    · exact Nat.zero_le _
    · exact ih _ (Nat.zero_le _)
    · apply ih
      simp only [ge_iff_le, not_le] at hc
      dsimp only at hc ⊢
      omega

theorem print_loop_row (char_signed : Bool) (g_font6x8 : Nat → Nat → Nat) :
    ∀ (s : List Nat) (d : SH1106), d._row ≤ 7 →
      (print_loop char_signed g_font6x8 s d)._row ≤ 8 := by
  intro s
  induction s with
  | nil => intro d h; simp only [print_loop]; omega
  | cons b s ih =>
    intro d h
    have hmod : (d._row + 1) % 256 = d._row + 1 := Nat.mod_eq_of_lt (by omega)
    simp only [print_loop]
    split_ifs with h0 hnl hr hc hr2
    · omega
    · simp only [hmod]; omega
    · apply ih; simp only [ge_iff_le, not_le] at hr; dsimp only at hr ⊢; omega
    · simp only [hmod]; omega
    · apply ih; simp only [ge_iff_le, not_le] at hr2; dsimp only at hr2 ⊢; omega
    · exact ih _ h

theorem step_cursor_other (char_signed : Bool) (g_font6x8 : Nat → Nat → Nat) (d : SH1106)
    (op : Op) (hbad : op.badCursor = false) (hnp : op.isPrint = false)
    (hc : d._col ≤ 20) (hr : d._row ≤ 7) :
    (step char_signed g_font6x8 d op)._col ≤ 20
      ∧ (step char_signed g_font6x8 d op)._row ≤ 7 := by
  cases op with
  | init i2c_init =>
    simp only [step, init]
    split_ifs <;> simp [set_cursor, hc, hr]
  | clear => simp [step, clear, set_cursor]
  | contrast c => simp [step, contrast, hc, hr]
  | set_cursor col row =>
    simp only [Op.badCursor, decide_eq_false_iff_not, not_or, not_lt] at hbad
    simp [step, set_cursor, hbad.1, hbad.2]
  | print s => simp [Op.isPrint] at hnp
  | print_line row s => simp [step, print_line, hc, hr]

theorem step_col (char_signed : Bool) (g_font6x8 : Nat → Nat → Nat) (d : SH1106)
    (op : Op) (hbad : op.badCursor = false) (hc : d._col ≤ 20) :
    (step char_signed g_font6x8 d op)._col ≤ 20 := by
  cases op with
  | init i2c_init =>
    simp only [step, init]
    split_ifs <;> simp [set_cursor, hc]
  | clear => simp [step, clear, set_cursor]
  | contrast c => simp [step, contrast, hc]
  | set_cursor col row =>
    simp only [Op.badCursor, decide_eq_false_iff_not, not_or, not_lt] at hbad
    simp [step, set_cursor, hbad.1]
  | print s => exact print_loop_col char_signed g_font6x8 s d hc
  | print_line row s => simp [step, print_line, hc]

theorem runOps_col (char_signed : Bool) (g_font6x8 : Nat → Nat → Nat) :
    ∀ (ops : List Op) (d : SH1106), (∀ op, op ∈ ops → op.badCursor = false) →
      d._col ≤ 20 → (runOps char_signed g_font6x8 ops d)._col ≤ 20 := by
  intro ops
  induction ops with
  | nil => intro d _ hc; exact hc
  | cons op ops ih =>
    intro d hops hc
    exact ih _ (fun o ho => hops o (List.mem_cons_of_mem _ ho))
      (step_col _ _ d op (hops op (List.mem_cons_self _ _)) hc)

theorem runOps_cons (char_signed : Bool) (g_font6x8 : Nat → Nat → Nat) (op : Op)
    (ops : List Op) (d : SH1106) :
    runOps char_signed g_font6x8 (op :: ops) d
      = runOps char_signed g_font6x8 ops (step char_signed g_font6x8 d op) := rfl

/-- From an in-range cursor, with in-range `set_cursor` arguments, the row stays in 0..7
unless some `print` call of the sequence ends with the row at 8 or more. -/
theorem runOps_row (char_signed : Bool) (g_font6x8 : Nat → Nat → Nat) :
    ∀ (ops : List Op) (d : SH1106), (∀ op, op ∈ ops → op.badCursor = false) →
      d._col ≤ 20 → d._row ≤ 7 →
      (runOps char_signed g_font6x8 ops d)._row ≤ 7
      ∨ ∃ (before : List Op) (s : List Nat) (after : List Op),
          ops = before ++ Op.print s :: after
          ∧ 8 ≤ (runOps char_signed g_font6x8 (before ++ [Op.print s]) d)._row := by
  intro ops
  induction ops with
  | nil => intro d _ _ hr; exact Or.inl hr
  | cons op ops ih =>
    intro d hops hc hr
    have hbad := hops op (List.mem_cons_self _ _)
    have hrest : ∀ o, o ∈ ops → o.badCursor = false :=
      fun o ho => hops o (List.mem_cons_of_mem _ ho)
    have hcol := step_col char_signed g_font6x8 d op hbad hc
    by_cases hrow : (step char_signed g_font6x8 d op)._row ≤ 7
    · rcases ih _ hrest hcol hrow with h | ⟨before, s, after, heq, hge⟩
      · exact Or.inl h
      · refine Or.inr ⟨op :: before, s, after, ?_, ?_⟩
        · rw [heq]; rfl
        · exact hge
    · cases hp : op.isPrint with
      | false =>
        exact absurd (step_cursor_other char_signed g_font6x8 d op hbad hp hc hr).2 hrow
      | true =>
        cases op with
        | print s =>
          refine Or.inr ⟨[], s, ops, rfl, ?_⟩
          have : ¬ (step char_signed g_font6x8 d (Op.print s))._row ≤ 7 := hrow
          show 8 ≤ (step char_signed g_font6x8 d (Op.print s))._row
          omega
        | init i => simp [Op.isPrint] at hp
        | clear => simp [Op.isPrint] at hp
        | contrast c => simp [Op.isPrint] at hp
        | set_cursor c r => simp [Op.isPrint] at hp
        | print_line r s => simp [Op.isPrint] at hp

/-- C8 as stated fails: `set_cursor(21, 8)` stores the cursor (21, 8) as given, and
`print` of eight newlines from (0,0) leaves the row at 8. -/
theorem C8_cursor_counterexample :
    (runOps true demoFont [Op.set_cursor 21 8] freshDisplay)._col = 21
    ∧ (runOps true demoFont [Op.set_cursor 21 8] freshDisplay)._row = 8
    ∧ (runOps true demoFont [Op.print (List.replicate 8 10)] freshDisplay)._row = 8 := by
  decide

/-- C8 amended: starting from cursor (0,0), after any sequence of public driver operations
in which `set_cursor` is only called with column 0..20 and row 0..7, the character column is
in 0..20; the page row is in 0..7 unless some `print` call of the sequence ended with the row
at 8 or more; and a `print` that starts with the cursor in range ends with column 0..20 and
row 0..8. -/
theorem C8_cursor_amended (char_signed : Bool) (g_font6x8 : Nat → Nat → Nat)
    (ops : List Op) (bus : Bus) (hargs : ∀ op, op ∈ ops → op.badCursor = false) :
    (runOps char_signed g_font6x8 ops ⟨0, 0, bus⟩)._col ≤ 20
    ∧ ((runOps char_signed g_font6x8 ops ⟨0, 0, bus⟩)._row ≤ 7
        ∨ ∃ (before : List Op) (s : List Nat) (after : List Op),
            ops = before ++ Op.print s :: after
            ∧ 8 ≤ (runOps char_signed g_font6x8 (before ++ [Op.print s]) ⟨0, 0, bus⟩)._row)
    ∧ (∀ (s : List Nat) (d : SH1106), d._col ≤ 20 → d._row ≤ 7 →
        (print char_signed g_font6x8 s d)._col ≤ 20
          ∧ (print char_signed g_font6x8 s d)._row ≤ 8) :=
  ⟨runOps_col char_signed g_font6x8 ops ⟨0, 0, bus⟩ hargs (Nat.zero_le _),
   runOps_row char_signed g_font6x8 ops ⟨0, 0, bus⟩ hargs (Nat.zero_le _) (Nat.zero_le _),
   fun s d hc hr => ⟨print_loop_col char_signed g_font6x8 s d hc,
                     print_loop_row char_signed g_font6x8 s d hr⟩⟩

/-- C8 amended, at the sequence init, set_cursor(20, 7), print "A", clear. -/
theorem C8_cursor_amended_witness :
    (runOps true demoFont [Op.init 0, Op.set_cursor 20 7, Op.print [0x41], Op.clear]
        ⟨0, 0, okBus []⟩)._col ≤ 20
    ∧ ((runOps true demoFont [Op.init 0, Op.set_cursor 20 7, Op.print [0x41], Op.clear]
          ⟨0, 0, okBus []⟩)._row ≤ 7
        ∨ ∃ (before : List Op) (s : List Nat) (after : List Op),
            [Op.init 0, Op.set_cursor 20 7, Op.print [0x41], Op.clear]
              = before ++ Op.print s :: after
            ∧ 8 ≤ (runOps true demoFont (before ++ [Op.print s]) ⟨0, 0, okBus []⟩)._row)
    ∧ (∀ (s : List Nat) (d : SH1106), d._col ≤ 20 → d._row ≤ 7 →
        (print true demoFont s d)._col ≤ 20 ∧ (print true demoFont s d)._row ≤ 8) :=
  C8_cursor_amended true demoFont
    [Op.init 0, Op.set_cursor 20 7, Op.print [0x41], Op.clear] (okBus [])
    (by intro op hop; simp only [List.mem_cons, List.mem_singleton, List.not_mem_nil,
          or_false] at hop
        rcases hop with h | h | h | h <;> subst h <;> rfl)


/-! ## Glyph lookup and fallback -/

theorem charVal_newline (char_signed : Bool) (b : Nat) (hb : b < 256) :
    charVal char_signed b = 10 ↔ b = 10 := by
  unfold charVal
  split_ifs with h
  · have := h.2
    constructor <;> intro h' <;> omega
  · constructor <;> intro h' <;> omega

theorem fontIndex_in_range (char_signed : Bool) (b : Nat) (h : 0x20 ≤ b ∧ b ≤ 0x7F) :
    fontIndex (fallback (charVal char_signed b)) = ((b - 0x20 : Nat) : Int) := by
  have hcv : charVal char_signed b = (b : Int) := by
    unfold charVal
    rw [if_neg]
    intro hc
    have := hc.2
    omega
  have hfb : fallback (b : Int) = (b : Int) := by
    unfold fallback
    rw [if_neg]
    intro hc
    omega
  rw [hcv, hfb]
  unfold fontIndex
  omega

theorem fontIndex_out_of_range (char_signed : Bool) (b : Nat) (hb : b < 256)
    (h : b < 0x20 ∨ 0x7F < b) :
    fontIndex (fallback (charVal char_signed b)) = 0x1F := by
  have hfb : fallback (charVal char_signed b) = 0x3F := by
    unfold fallback charVal
    rw [if_pos]
    split_ifs with hc
    · left; omega
    · rcases h with h | h
      · left; omega
      · right; omega
  rw [hfb]; rfl

theorem glyph_in_range (char_signed : Bool) (g_font6x8 : Nat → Nat → Nat) (b : Nat)
    (h : 0x20 ≤ b ∧ b ≤ 0x7F) :
    glyph char_signed g_font6x8 b = (List.range 6).map (g_font6x8 (b - 0x20)) := by
  unfold glyph glyphAt
  rw [fontIndex_in_range char_signed b h, Int.toNat_ofNat]

theorem glyph_out_of_range (char_signed : Bool) (g_font6x8 : Nat → Nat → Nat) (b : Nat)
    (hb : b < 256) (h : b < 0x20 ∨ 0x7F < b) :
    glyph char_signed g_font6x8 b = glyph char_signed g_font6x8 0x3F := by
  unfold glyph glyphAt
  rw [fontIndex_out_of_range char_signed b hb h,
    fontIndex_in_range char_signed 0x3F (by decide)]
  rfl

/-- Inside `print_line`, a byte matters only through being zero or not and its glyph. -/
theorem print_line_loop_congr (char_signed : Bool) (g_font6x8 : Nat → Nat → Nat)
    (b c : Nat) (post : List Nat) (hb : b ≠ 0) (hc : c ≠ 0)
    (hg : glyph char_signed g_font6x8 b = glyph char_signed g_font6x8 c) :
    ∀ (pre : List Nat) (x : Nat) (buf : List Nat),
      print_line_loop char_signed g_font6x8 (pre ++ b :: post) x buf
        = print_line_loop char_signed g_font6x8 (pre ++ c :: post) x buf := by
  intro pre
  induction pre with
  | nil =>
    intro x buf
    simp only [List.nil_append, print_line_loop, hb, hc, hg, ne_eq, not_false_eq_true,
      true_and]
  | cons a pre ih =>
    intro x buf
    simp only [List.cons_append, print_line_loop, List.append_eq, ih]

/-- Inside `print`, a byte matters only through being zero, being a newline, and its
glyph. -/
theorem print_loop_congr (char_signed : Bool) (g_font6x8 : Nat → Nat → Nat)
    (b c : Nat) (post : List Nat) (hb : b ≠ 0) (hc : c ≠ 0)
    (hbn : charVal char_signed b ≠ 10) (hcn : charVal char_signed c ≠ 10)
    (hg : glyph char_signed g_font6x8 b = glyph char_signed g_font6x8 c) :
    ∀ (pre : List Nat) (d : SH1106),
      print_loop char_signed g_font6x8 (pre ++ b :: post) d
        = print_loop char_signed g_font6x8 (pre ++ c :: post) d := by
  intro pre
  induction pre with
  | nil =>
    intro d
    simp only [List.nil_append, print_loop, hb, hc, hbn, hcn, hg, if_false]
  | cons a pre ih =>
    intro d
    simp only [List.cons_append, print_loop, List.append_eq, ih]

/-- A buffer of 1 to 16 bytes goes out as one data transfer, whatever the bus answers. -/
theorem send_data_short (data : List Nat) (bus : Bus) (hne : data ≠ [])
    (hle : data.length ≤ 16) :
    (send_data data bus).2 = ⟨bus.log ++ [0x40 :: data], bus.ret⟩ := by
  have hpos : 0 < data.length := List.length_pos.mpr hne
  obtain ⟨n, hn⟩ : ∃ n, data.length = n + 1 := ⟨data.length - 1, by omega⟩
  have hnil : ∀ (f : Nat) (b : Bus), send_data_loop f [] b = (PX4_OK, b) := by
    intro f b; cases f <;> simp [send_data_loop]
  unfold send_data
  rw [hn, send_data_loop_step n data bus hne, List.take_of_length_le hle,
    List.drop_of_length_le hle, hnil]
  split_ifs <;> rfl

theorem print_single (char_signed : Bool) (g_font6x8 : Nat → Nat → Nat) (b : Nat)
    (d : SH1106) (hnz : b ≠ 0) (hnl : charVal char_signed b ≠ 10) :
    (print char_signed g_font6x8 [b] d).bus
      = ⟨d.bus.log ++ cmdFrames (pageColBytes d._row ((d._col * 6) % 256))
            ++ [0x40 :: glyph char_signed g_font6x8 b], d.bus.ret⟩ := by
  have hbus : (send_data (glyph char_signed g_font6x8 b)
        (set_page_col d._row ((d._col * 6) % 256) d.bus)).2
      = ⟨d.bus.log ++ cmdFrames (pageColBytes d._row ((d._col * 6) % 256))
            ++ [0x40 :: glyph char_signed g_font6x8 b], d.bus.ret⟩ := by
    rw [send_data_short _ _ (by intro h; simpa [h] using glyph_length char_signed g_font6x8 b)
      (by rw [glyph_length]; omega), set_page_col_eq]
  simp only [print, print_loop, hnz, hnl, if_false, hbus]
  split_ifs <;> rfl

/-- C9 as stated fails for `print` at the newline byte 0x0A, a control character below 0x20:
`print` draws nothing for it and moves the cursor from (0,0) to column 0 of row 1, while for
'?' it sends the address sequence and the six glyph bytes of table entry 0x1F and moves the
cursor to column 1 of row 0. -/
theorem C9_newline_counterexample :
    (print true demoFont [0x0A] freshDisplay).bus.log = []
    ∧ (print true demoFont [0x0A] freshDisplay)._col = 0
    ∧ (print true demoFont [0x0A] freshDisplay)._row = 1
    ∧ (print true demoFont [0x3F] freshDisplay).bus.log
        = [[0x00, 0xB0], [0x00, 0x02], [0x00, 0x10], [0x40, 31, 32, 33, 34, 35, 36]]
    ∧ (print true demoFont [0x3F] freshDisplay)._col = 1
    ∧ (print true demoFont [0x3F] freshDisplay)._row = 0 := by
  decide

/-- C9 amended: for every byte of a string (nonzero, below 256) outside 0x20..0x7F,
`print_line` renders the same six bytes as for '?' (0x3F), namely table entry 0x1F, and so
does `print` unless the byte is the newline 0x0A; replacing the byte by '?' anywhere in a
string leaves the whole call unchanged. For every byte in 0x20..0x7F both render the
six-byte table entry at index `byte - 0x20`. For the newline 0x0A, from any cursor and bus,
`print` issues no transfer and moves the cursor to column 0 of the next row (`row + 1` as a
`uint8_t`), then stops if that row is 8 or more and otherwise goes on with the rest of the
string; in `print_line` the newline is drawn as '?' like any other control character. -/
theorem C9_fallback_amended (char_signed : Bool) (g_font6x8 : Nat → Nat → Nat) (b : Nat)
    (hb : b < 256) (hnz : b ≠ 0) :
    ((b < 0x20 ∨ 0x7F < b) →
        glyph char_signed g_font6x8 b = (List.range 6).map (g_font6x8 0x1F)
        ∧ (∀ (row : Nat) (pre post : List Nat) (d : SH1106),
            print_line char_signed g_font6x8 row (pre ++ b :: post) d
              = print_line char_signed g_font6x8 row (pre ++ 0x3F :: post) d)
        ∧ (b ≠ 0x0A → ∀ (pre post : List Nat) (d : SH1106),
            print char_signed g_font6x8 (pre ++ b :: post) d
              = print char_signed g_font6x8 (pre ++ 0x3F :: post) d))
    ∧ ((0x20 ≤ b ∧ b ≤ 0x7F) →
        glyph char_signed g_font6x8 b = (List.range 6).map (g_font6x8 (b - 0x20))
        ∧ print_line_buf char_signed g_font6x8 [b]
            = (List.range 6).map (g_font6x8 (b - 0x20)) ++ List.replicate 122 0
        ∧ (∀ d : SH1106, (print char_signed g_font6x8 [b] d).bus.log
            = d.bus.log
                ++ (pageColBytes d._row ((d._col * 6) % 256)).map (fun c => [0x00, c])
                ++ [0x40 :: (List.range 6).map (g_font6x8 (b - 0x20))]))
    ∧ (∀ (rest : List Nat) (d : SH1106),
        print char_signed g_font6x8 (0x0A :: rest) d
          = if (d._row + 1) % 256 ≥ 8 then ⟨0, (d._row + 1) % 256, d.bus⟩
            else print char_signed g_font6x8 rest ⟨0, (d._row + 1) % 256, d.bus⟩)
    ∧ (∀ d : SH1106,
        print char_signed g_font6x8 [0x0A] d = ⟨0, (d._row + 1) % 256, d.bus⟩)
    ∧ (∀ (row : Nat) (pre post : List Nat) (d : SH1106),
        print_line char_signed g_font6x8 row (pre ++ 0x0A :: post) d
          = print_line char_signed g_font6x8 row (pre ++ 0x3F :: post) d) := by
  have hq : glyph char_signed g_font6x8 0x3F = (List.range 6).map (g_font6x8 0x1F) :=
    glyph_in_range char_signed g_font6x8 0x3F (by decide)
  have hqn : charVal char_signed 0x3F ≠ 10 := by
    rw [Ne, charVal_newline char_signed 0x3F (by decide)]; decide
  have hnlv : charVal char_signed 0x0A = 10 :=
    (charVal_newline char_signed 0x0A (by decide)).mpr rfl
  have hstep : ∀ (rest : List Nat) (d : SH1106),
      print char_signed g_font6x8 (0x0A :: rest) d
        = if (d._row + 1) % 256 ≥ 8 then ⟨0, (d._row + 1) % 256, d.bus⟩
          else print char_signed g_font6x8 rest ⟨0, (d._row + 1) % 256, d.bus⟩ := by
    intro rest d
    have h0 : ¬ ((0x0A : Nat) = 0) := by decide
    simp only [print, print_loop, if_neg h0, hnlv, if_true]
  refine ⟨?_, ?_, hstep, ?_, ?_⟩
  rotate_left 2
  · intro d
    rw [hstep]
    simp only [print, print_loop]
    split_ifs <;> rfl
  · intro row pre post d
    unfold print_line print_line_buf
    rw [print_line_loop_congr char_signed g_font6x8 0x0A 0x3F post (by decide) (by decide)
      (glyph_out_of_range char_signed g_font6x8 0x0A (by decide) (by decide))]
  · intro hout
    have hg := glyph_out_of_range char_signed g_font6x8 b hb hout
    refine ⟨hg.trans hq, ?_, ?_⟩
    · intro row pre post d
      unfold print_line print_line_buf
      rw [print_line_loop_congr char_signed g_font6x8 b 0x3F post hnz (by decide) hg]
    · intro hnl pre post d
      have hbn : charVal char_signed b ≠ 10 := by
        rw [Ne, charVal_newline char_signed b hb]; exact hnl
      exact print_loop_congr char_signed g_font6x8 b 0x3F post hnz (by decide) hbn hqn hg
        pre d
  · intro hin
    have hg := glyph_in_range char_signed g_font6x8 b hin
    have hbn : charVal char_signed b ≠ 10 := by
      rw [Ne, charVal_newline char_signed b hb]; omega
    refine ⟨hg, ?_, ?_⟩
    · rw [print_line_buf_eq, cstr_cons_ne b [] hnz]
      simp [glyphRow, hg, cstr]
    · intro d
      rw [print_single char_signed g_font6x8 b d hnz hbn, hg]
      rfl

/-- C9 amended, at the byte 0x80. -/
theorem C9_fallback_amended_witness :
    ((0x80 < 0x20 ∨ 0x7F < 0x80) →
        glyph true demoFont 0x80 = (List.range 6).map (demoFont 0x1F)
        ∧ (∀ (row : Nat) (pre post : List Nat) (d : SH1106),
            print_line true demoFont row (pre ++ 0x80 :: post) d
              = print_line true demoFont row (pre ++ 0x3F :: post) d)
        ∧ (0x80 ≠ 0x0A → ∀ (pre post : List Nat) (d : SH1106),
            print true demoFont (pre ++ 0x80 :: post) d
              = print true demoFont (pre ++ 0x3F :: post) d))
    ∧ ((0x20 ≤ 0x80 ∧ 0x80 ≤ 0x7F) →
        glyph true demoFont 0x80 = (List.range 6).map (demoFont (0x80 - 0x20))
        ∧ print_line_buf true demoFont [0x80]
            = (List.range 6).map (demoFont (0x80 - 0x20)) ++ List.replicate 122 0
        ∧ (∀ d : SH1106, (print true demoFont [0x80] d).bus.log
            = d.bus.log
                ++ (pageColBytes d._row ((d._col * 6) % 256)).map (fun c => [0x00, c])
                ++ [0x40 :: (List.range 6).map (demoFont (0x80 - 0x20))]))
    ∧ (∀ (rest : List Nat) (d : SH1106),
        print true demoFont (0x0A :: rest) d
          = if (d._row + 1) % 256 ≥ 8 then ⟨0, (d._row + 1) % 256, d.bus⟩
            else print true demoFont rest ⟨0, (d._row + 1) % 256, d.bus⟩)
    ∧ (∀ d : SH1106, print true demoFont [0x0A] d = ⟨0, (d._row + 1) % 256, d.bus⟩)
    ∧ (∀ (row : Nat) (pre post : List Nat) (d : SH1106),
        print_line true demoFont row (pre ++ 0x0A :: post) d
          = print_line true demoFont row (pre ++ 0x3F :: post) d) :=
  C9_fallback_amended true demoFont 0x80 (by decide) (by decide)

/-! ## `print` -/

theorem glyph_draw_bus (char_signed : Bool) (g_font6x8 : Nat → Nat → Nat) (b : Nat)
    (d : SH1106) (hc : d._col ≤ 20) :
    (send_data (glyph char_signed g_font6x8 b)
        (set_page_col d._row ((d._col * 6) % 256) d.bus)).2
      = ⟨d.bus.log ++ drawFrames char_signed g_font6x8 (d._row, d._col, b), d.bus.ret⟩ := by
  have hmod : (d._col * 6) % 256 = 6 * d._col := by
    rw [Nat.mod_eq_of_lt (by omega), Nat.mul_comm]
  rw [send_data_short _ _ (by intro h; simpa [h] using glyph_length char_signed g_font6x8 b)
    (by rw [glyph_length]; omega), set_page_col_eq, hmod]
  simp [drawFrames, cmdFrames]

theorem print_loop_newline_step (char_signed : Bool) (g_font6x8 : Nat → Nat → Nat)
    (b : Nat) (s : List Nat) (d : SH1106) (hnz : b ≠ 0)
    (hnl : charVal char_signed b = 10) (hr : d._row ≤ 7) :
    print_loop char_signed g_font6x8 (b :: s) d
      = if d._row + 1 > 7 then ⟨0, d._row + 1, d.bus⟩
        else print_loop char_signed g_font6x8 s ⟨0, d._row + 1, d.bus⟩ := by
  have hmod : (d._row + 1) % 256 = d._row + 1 := Nat.mod_eq_of_lt (by omega)
  simp only [print_loop, hnz, hnl, if_false, if_true, hmod]
  by_cases h : d._row + 1 > 7
  · rw [if_pos h, if_pos (by omega)]
  · rw [if_neg h, if_neg (by omega)]

theorem print_loop_glyph_step (char_signed : Bool) (g_font6x8 : Nat → Nat → Nat)
    (b : Nat) (s : List Nat) (d : SH1106) (hnz : b ≠ 0)
    (hnl : charVal char_signed b ≠ 10) (hc : d._col ≤ 20) (hr : d._row ≤ 7) :
    print_loop char_signed g_font6x8 (b :: s) d
      = if d._col + 1 = 21 then
          if d._row + 1 > 7 then
            ⟨0, d._row + 1,
              ⟨d.bus.log ++ drawFrames char_signed g_font6x8 (d._row, d._col, b), d.bus.ret⟩⟩
          else print_loop char_signed g_font6x8 s
            ⟨0, d._row + 1,
              ⟨d.bus.log ++ drawFrames char_signed g_font6x8 (d._row, d._col, b), d.bus.ret⟩⟩
        else print_loop char_signed g_font6x8 s
          ⟨d._col + 1, d._row,
            ⟨d.bus.log ++ drawFrames char_signed g_font6x8 (d._row, d._col, b), d.bus.ret⟩⟩ := by
  have hrow : (d._row + 1) % 256 = d._row + 1 := Nat.mod_eq_of_lt (by omega)
  have hcol : (d._col + 1) % 256 = d._col + 1 := Nat.mod_eq_of_lt (by omega)
  simp only [print_loop, hnz, hnl, if_false, hrow, hcol,
    glyph_draw_bus char_signed g_font6x8 b d hc]
  by_cases h21 : d._col + 1 = 21
  · rw [if_pos h21, if_pos (by omega)]
    by_cases h8 : d._row + 1 > 7
    · rw [if_pos h8, if_pos (by omega)]
    · rw [if_neg h8, if_neg (by omega)]
  · rw [if_neg h21, if_neg (by omega)]

/-- The bus after `print`, from an in-range cursor: the frames of the draws, in order. -/
theorem print_loop_bus (char_signed : Bool) (g_font6x8 : Nat → Nat → Nat) :
    ∀ (s : List Nat) (d : SH1106), (∀ b, b ∈ s → b < 256) → d._col ≤ 20 → d._row ≤ 7 →
      (print_loop char_signed g_font6x8 s d).bus
        = ⟨d.bus.log ++ ((print_draws (cstr s) d._col d._row).map
              (drawFrames char_signed g_font6x8)).flatten, d.bus.ret⟩ := by
  intro s
  induction s with
  | nil => intro d _ _ _; simp [print_loop, cstr, print_draws]
  | cons b s ih =>
    intro d hbytes hc hr
    have hb : b < 256 := hbytes b (List.mem_cons_self _ _)
    have hs : ∀ c, c ∈ s → c < 256 := fun c hcs => hbytes c (List.mem_cons_of_mem _ hcs)
    by_cases hnz : b = 0
    · subst hnz
      simp [print_loop, cstr_cons_zero, print_draws]
    · rw [cstr_cons_ne b s hnz]
      by_cases hnl : b = 10
      · have hcv : charVal char_signed b = 10 := (charVal_newline char_signed b hb).mpr hnl
        rw [print_loop_newline_step char_signed g_font6x8 b s d hnz hcv hr]
        simp only [print_draws, hnl, if_true]
        by_cases h8 : d._row + 1 > 7
        · simp [h8]
        · rw [if_neg h8, if_neg h8, ih _ hs (Nat.zero_le _) (by show d._row + 1 ≤ 7; omega)]
      · have hcv : charVal char_signed b ≠ 10 :=
          fun h => hnl ((charVal_newline char_signed b hb).mp h)
        rw [print_loop_glyph_step char_signed g_font6x8 b s d hnz hcv hc hr]
        simp only [print_draws, hnl, if_false, List.map_cons, List.flatten_cons]
        by_cases h21 : d._col + 1 = 21
        · rw [if_pos h21, if_pos h21]
          by_cases h8 : d._row + 1 > 7
          · simp [h8]
          · rw [if_neg h8, if_neg h8,
              ih _ hs (Nat.zero_le _) (by show d._row + 1 ≤ 7; omega)]
            simp [List.append_assoc]
        · rw [if_neg h21, if_neg h21,
            ih (SH1106.mk (d._col + 1) d._row ⟨d.bus.log ++ drawFrames char_signed g_font6x8 (d._row, d._col, b), d.bus.ret⟩)
              hs (by show d._col + 1 ≤ 20; omega) hr]
          simp [List.append_assoc]

theorem print_draws_bounds : ∀ (cs : List Nat) (col row : Nat), col ≤ 20 → row ≤ 7 →
    (∀ dr, dr ∈ print_draws cs col row → dr.1 ≤ 7 ∧ dr.2.1 ≤ 20 ∧ dr.2.2 ≠ 10)
    ∧ (print_draws cs col row).length + col ≤ 21 * (8 - row) := by
  intro cs
  induction cs with
  | nil =>
    intro col row hc hr
    simp only [print_draws, List.not_mem_nil, false_implies, implies_true, true_and,
      List.length_nil]
    omega
  | cons b cs ih =>
    intro col row hc hr
    by_cases hnl : b = 10
    · simp only [print_draws, hnl, if_true]
      by_cases h8 : row + 1 > 7
      · simp only [if_pos h8, List.not_mem_nil, false_implies, implies_true, true_and,
          List.length_nil]
        omega
      · have h := ih 0 (row + 1) (Nat.zero_le _) (by omega)
        rw [if_neg h8]
        exact ⟨h.1, by have := h.2; omega⟩
    · simp only [print_draws, hnl, if_false]
      by_cases h21 : col + 1 = 21
      · rw [if_pos h21]
        by_cases h8 : row + 1 > 7
        · rw [if_pos h8]
          constructor
          · intro dr hdr
            simp only [List.mem_singleton] at hdr
            subst hdr
            exact ⟨hr, hc, hnl⟩
          · simp only [List.length_singleton]; omega
        · rw [if_neg h8]
          have h := ih 0 (row + 1) (Nat.zero_le _) (by omega)
          constructor
          · intro dr hdr
            rcases List.mem_cons.mp hdr with heq | hmem
            · subst heq; exact ⟨hr, hc, hnl⟩
            · exact h.1 dr hmem
          · have := h.2
            simp only [List.length_cons]; omega
      · rw [if_neg h21]
        have h := ih (col + 1) row (by omega) hr
        constructor
        · intro dr hdr
          rcases List.mem_cons.mp hdr with heq | hmem
          · subst heq; exact ⟨hr, hc, hnl⟩
          · exact h.1 dr hmem
        · have := h.2
          simp only [List.length_cons]; omega

/-- Once `print` has stopped on row overflow, later characters change nothing. -/
theorem print_loop_stop (char_signed : Bool) (g_font6x8 : Nat → Nat → Nat) :
    ∀ (s : List Nat) (d : SH1106), (∀ b, b ∈ s → b < 256) → d._col ≤ 20 → d._row ≤ 7 →
      (print_loop char_signed g_font6x8 s d)._row = 8 →
      ∀ t : List Nat, print_loop char_signed g_font6x8 (cstr s ++ t) d
        = print_loop char_signed g_font6x8 s d := by
  intro s
  induction s with
  | nil =>
    intro d _ _ hr h8 t
    simp only [print_loop] at h8
    omega
  | cons b s ih =>
    intro d hbytes hc hr h8 t
    have hb : b < 256 := hbytes b (List.mem_cons_self _ _)
    have hs : ∀ c, c ∈ s → c < 256 := fun c hcs => hbytes c (List.mem_cons_of_mem _ hcs)
    by_cases hnz : b = 0
    · subst hnz
      simp only [print_loop, if_true] at h8
      omega
    · rw [cstr_cons_ne b s hnz, List.cons_append]
      by_cases hnl : b = 10
      · have hcv : charVal char_signed b = 10 := (charVal_newline char_signed b hb).mpr hnl
        rw [print_loop_newline_step char_signed g_font6x8 b s d hnz hcv hr] at h8 ⊢
        rw [print_loop_newline_step char_signed g_font6x8 b _ d hnz hcv hr]
        by_cases h7 : d._row + 1 > 7
        · rw [if_pos h7, if_pos h7]
        · rw [if_neg h7] at h8 ⊢
          rw [if_neg h7]
          exact ih _ hs (Nat.zero_le _) (by show d._row + 1 ≤ 7; omega) h8 t
      · have hcv : charVal char_signed b ≠ 10 :=
          fun h => hnl ((charVal_newline char_signed b hb).mp h)
        rw [print_loop_glyph_step char_signed g_font6x8 b s d hnz hcv hc hr] at h8 ⊢
        rw [print_loop_glyph_step char_signed g_font6x8 b _ d hnz hcv hc hr]
        by_cases h21 : d._col + 1 = 21
        · rw [if_pos h21] at h8 ⊢
          rw [if_pos h21]
          by_cases h7 : d._row + 1 > 7
          · rw [if_pos h7, if_pos h7]
          · rw [if_neg h7] at h8 ⊢
            rw [if_neg h7]
            exact ih _ hs (Nat.zero_le _) (by show d._row + 1 ≤ 7; omega) h8 t
        · rw [if_neg h21] at h8 ⊢
          rw [if_neg h21]
          exact ih (SH1106.mk (d._col + 1) d._row ⟨d.bus.log ++ drawFrames char_signed g_font6x8 (d._row, d._col, b), d.bus.ret⟩)
            hs (by show d._col + 1 ≤ 20; omega) hr h8 t

/-- C10: from a cursor in range, `print(s)` issues exactly the transfers of the draws the
specification describes: for each non-newline character, in order, the address sequence
`set_page_col(row, 6 * column)` and one data transfer with its six glyph bytes, the column
advancing after each; a newline or column 21 moves to column 0 of the next row; every draw
lies in rows 0..7 and columns 0..20; at most `21 * (8 - row) - column` glyphs are drawn
(168 from (0,0)); and once the call has stopped on row overflow (row 8), characters that
follow have no effect on the call. -/
theorem C10_print_draws (char_signed : Bool) (g_font6x8 : Nat → Nat → Nat) (s : List Nat)
    (d : SH1106) (hc : d._col ≤ 20) (hr : d._row ≤ 7) (hbytes : ∀ b, b ∈ s → b < 256) :
    (print char_signed g_font6x8 s d).bus.log
        = d.bus.log ++ ((print_draws (cstr s) d._col d._row).map
            (fun dr => (pageColBytes dr.1 (6 * dr.2.1)).map (fun c => [0x00, c])
                        ++ [0x40 :: glyph char_signed g_font6x8 dr.2.2])).flatten
    ∧ (∀ dr, dr ∈ print_draws (cstr s) d._col d._row →
        dr.1 ≤ 7 ∧ dr.2.1 ≤ 20 ∧ dr.2.2 ≠ 10)
    ∧ (print_draws (cstr s) d._col d._row).length + d._col ≤ 21 * (8 - d._row)
    ∧ (print_draws (cstr s) 0 0).length ≤ 168
    ∧ ((print char_signed g_font6x8 s d)._row = 8 →
        ∀ t : List Nat, print char_signed g_font6x8 (cstr s ++ t) d
          = print char_signed g_font6x8 s d) := by
  have hb := print_draws_bounds (cstr s) d._col d._row hc hr
  have h0 := (print_draws_bounds (cstr s) 0 0 (Nat.zero_le _) (Nat.zero_le _)).2
  refine ⟨?_, hb.1, hb.2, by omega, ?_⟩
  · unfold print
    rw [print_loop_bus char_signed g_font6x8 s d hbytes hc hr]
    rfl
  · intro h8 t
    exact print_loop_stop char_signed g_font6x8 s d hbytes hc hr h8 t

/-- C10 at the string "A\nB" from a fresh display. -/
theorem C10_print_draws_witness :
    (print true demoFont [0x41, 0x0A, 0x42] freshDisplay).bus.log
        = freshDisplay.bus.log
            ++ ((print_draws (cstr [0x41, 0x0A, 0x42]) freshDisplay._col freshDisplay._row).map
            (fun dr => (pageColBytes dr.1 (6 * dr.2.1)).map (fun c => [0x00, c])
                        ++ [0x40 :: glyph true demoFont dr.2.2])).flatten
    ∧ (∀ dr, dr ∈ print_draws (cstr [0x41, 0x0A, 0x42]) freshDisplay._col freshDisplay._row →
        dr.1 ≤ 7 ∧ dr.2.1 ≤ 20 ∧ dr.2.2 ≠ 10)
    ∧ (print_draws (cstr [0x41, 0x0A, 0x42]) freshDisplay._col freshDisplay._row).length
          + freshDisplay._col ≤ 21 * (8 - freshDisplay._row)
    ∧ (print_draws (cstr [0x41, 0x0A, 0x42]) 0 0).length ≤ 168
    ∧ ((print true demoFont [0x41, 0x0A, 0x42] freshDisplay)._row = 8 →
        ∀ t : List Nat, print true demoFont (cstr [0x41, 0x0A, 0x42] ++ t) freshDisplay
          = print true demoFont [0x41, 0x0A, 0x42] freshDisplay) :=
  C10_print_draws true demoFont [0x41, 0x0A, 0x42] freshDisplay (by decide) (by decide)
    (by decide)

/-! ## `clear` and the successful `init` -/

theorem clear_page_ok (bus : Bus) (page : Nat) (h : bus.allOk) :
    clear_page bus page = ⟨bus.log ++ pageBlock page (List.replicate 128 0), bus.ret⟩ := by
  unfold clear_page
  rw [set_page_col_eq, send_data_ok _ _ (allOk_extend bus h _)]
  simp [pageBlock, List.append_assoc]

theorem clear_pages_ok : ∀ (pages : List Nat) (bus : Bus), bus.allOk →
    pages.foldl clear_page bus
      = ⟨bus.log ++ (pages.map (fun page => pageBlock page (List.replicate 128 0))).flatten,
         bus.ret⟩ := by
  intro pages
  induction pages with
  | nil => intro bus _; simp
  | cons page pages ih =>
    intro bus h
    rw [List.foldl_cons, clear_page_ok bus page h, ih _ (allOk_extend bus h _)]
    simp [List.append_assoc]

theorem clearTraffic_eq :
    ((List.range 8).map (fun page => pageBlock page (List.replicate 128 0))).flatten
      = clearTraffic := by
  decide

theorem clear_ok (d : SH1106) (h : d.bus.allOk) :
    clear d = ⟨0, 0, ⟨d.bus.log ++ clearTraffic, d.bus.ret⟩⟩ := by
  unfold clear set_cursor
  rw [clear_pages_ok _ d.bus h, clearTraffic_eq]

/-- C11: on a bus whose transfers all succeed, `clear()` emits, for page 0 to 7 in order,
the three addressing commands `0xB0 | page`, `0x02`, `0x10` and then 128 zero data bytes as
eight framed chunks of 16, nothing else, and leaves the cursor at (0,0) whatever it was. -/
theorem C11_clear_traffic (d : SH1106) (hok : d.bus.allOk) :
    (clear d).bus.log
        = d.bus.log ++ ((List.range 8).map (fun page =>
            [[0x00, 0xB0 ||| page], [0x00, 0x02], [0x00, 0x10]]
              ++ List.replicate 8 (0x40 :: List.replicate 16 0))).flatten
    ∧ (clear d)._col = 0 ∧ (clear d)._row = 0 := by
  rw [clear_ok d hok]
  exact ⟨rfl, rfl, rfl⟩

/-- C11 at a driver with cursor (5, 3) on an always-succeeding bus. -/
theorem C11_clear_traffic_witness :
    (clear ⟨5, 3, okBus []⟩).bus.log
        = (okBus []).log ++ ((List.range 8).map (fun page =>
            [[0x00, 0xB0 ||| page], [0x00, 0x02], [0x00, 0x10]]
              ++ List.replicate 8 (0x40 :: List.replicate 16 0))).flatten
    ∧ (clear ⟨5, 3, okBus []⟩)._col = 0 ∧ (clear ⟨5, 3, okBus []⟩)._row = 0 :=
  C11_clear_traffic ⟨5, 3, okBus []⟩ (okBus_allOk [])

/-- C12: on a bus whose transfers all succeed (and with `I2C::init()` OK), `init()` returns
success; it first emits exactly the 23 command transfers `[0x00, c]` with `c` running through
AE, A1, C8, A8, 3F, D5, 80, D3, 00, DB, 40, 81, CF, AD, 8B, 40, DA, 12, D9, F1, A4, A6, AF,
then exactly the bus traffic of `clear()`, and leaves the cursor at (0,0). -/
theorem C12_init_traffic (d : SH1106) (hok : d.bus.allOk) :
    (init PX4_OK d).1 = PX4_OK
    ∧ (init PX4_OK d).2.bus.log
        = d.bus.log
            ++ [0xAE, 0xA1, 0xC8, 0xA8, 0x3F, 0xD5, 0x80, 0xD3, 0x00, 0xDB, 0x40, 0x81, 0xCF,
                0xAD, 0x8B, 0x40, 0xDA, 0x12, 0xD9, 0xF1, 0xA4, 0xA6, 0xAF].map
                  (fun c => [0x00, c])
            ++ clearTraffic
    ∧ (init PX4_OK d).2.bus.log
        = (clear ⟨d._col, d._row,
            ⟨d.bus.log ++ init_seq.map (fun c => [0x00, c]), d.bus.ret⟩⟩).bus.log
    ∧ (init_seq.map (fun c => [0x00, c])).length = 23
    ∧ (init PX4_OK d).2._col = 0 ∧ (init PX4_OK d).2._row = 0 := by
  have hcmds := send_cmds_ok init_seq d.bus hok
  have hok2 : (Bus.mk (d.bus.log ++ cmdFrames init_seq) d.bus.ret).allOk :=
    allOk_extend d.bus hok _
  have hinit : init PX4_OK d
      = (PX4_OK, ⟨0, 0, ⟨d.bus.log ++ cmdFrames init_seq ++ clearTraffic, d.bus.ret⟩⟩) := by
    simp only [init, ne_eq, not_true_eq_false, if_false, hcmds]
    rw [clear_ok _ hok2]
    rfl
  rw [hinit]
  refine ⟨rfl, rfl, ?_, rfl, rfl, rfl⟩
  exact (congrArg (fun x : SH1106 => x.bus.log)
    (clear_ok ⟨d._col, d._row, ⟨d.bus.log ++ cmdFrames init_seq, d.bus.ret⟩⟩ hok2)).symm

/-- C12 at a fresh driver on an always-succeeding bus. -/
theorem C12_init_traffic_witness :
    (init PX4_OK freshDisplay).1 = PX4_OK
    ∧ (init PX4_OK freshDisplay).2.bus.log
        = freshDisplay.bus.log
            ++ [0xAE, 0xA1, 0xC8, 0xA8, 0x3F, 0xD5, 0x80, 0xD3, 0x00, 0xDB, 0x40, 0x81, 0xCF,
                0xAD, 0x8B, 0x40, 0xDA, 0x12, 0xD9, 0xF1, 0xA4, 0xA6, 0xAF].map
                  (fun c => [0x00, c])
            ++ clearTraffic
    ∧ (init PX4_OK freshDisplay).2.bus.log
        = (clear ⟨freshDisplay._col, freshDisplay._row,
            ⟨freshDisplay.bus.log ++ init_seq.map (fun c => [0x00, c]),
             freshDisplay.bus.ret⟩⟩).bus.log
    ∧ (init_seq.map (fun c => [0x00, c])).length = 23
    ∧ (init PX4_OK freshDisplay).2._col = 0 ∧ (init PX4_OK freshDisplay).2._row = 0 :=
  C12_init_traffic freshDisplay (okBus_allOk [])

/-! ## Status results -/

theorem print_loop_cursor (char_signed : Bool) (g_font6x8 : Nat → Nat → Nat) :
    ∀ (s : List Nat) (d e : SH1106), d._col = e._col → d._row = e._row →
      (print_loop char_signed g_font6x8 s d)._col = (print_loop char_signed g_font6x8 s e)._col
      ∧ (print_loop char_signed g_font6x8 s d)._row
          = (print_loop char_signed g_font6x8 s e)._row := by
  intro s
  induction s with
  | nil => intro d e hc hr; exact ⟨hc, hr⟩
  | cons b s ih =>
    intro d e hc hr
    simp only [print_loop, hc, hr]
    split_ifs
    · exact ⟨hc, hr⟩
    · exact ⟨rfl, rfl⟩
    · exact ih _ _ rfl rfl
    · exact ⟨rfl, rfl⟩
    · exact ih _ _ rfl rfl
    · exact ih _ _ rfl rfl

theorem step_cursor_bus_free (char_signed : Bool) (g_font6x8 : Nat → Nat → Nat) (op : Op)
    (d e : SH1106) (hop : op.isInit = false) (hc : d._col = e._col) (hr : d._row = e._row) :
    (step char_signed g_font6x8 d op)._col = (step char_signed g_font6x8 e op)._col
    ∧ (step char_signed g_font6x8 d op)._row = (step char_signed g_font6x8 e op)._row := by
  cases op with
  | init i => simp [Op.isInit] at hop
  | clear => exact ⟨rfl, rfl⟩
  | contrast c => exact ⟨hc, hr⟩
  | set_cursor col row => exact ⟨rfl, rfl⟩
  | print s => exact print_loop_cursor char_signed g_font6x8 s d e hc hr
  | print_line row s => exact ⟨hc, hr⟩

set_option maxRecDepth 20000 in
/-- C13 as stated fails: on a bus whose transfer number 23 (the first transfer of the screen
clear) fails with -1, `init()` still returns success after issuing all 111 transfers; and
`clear` hands its caller nothing, on a failing bus as on a working one. -/
theorem C13_status_counterexample :
    (failAt 23 (-1)).ret 23 = -1
    ∧ (init PX4_OK ⟨0, 0, failAt 23 (-1)⟩).1 = PX4_OK
    ∧ (init PX4_OK ⟨0, 0, failAt 23 (-1)⟩).2.bus.log.length = 111
    ∧ callResult ⟨0, 0, failAt 0 (-1)⟩ Op.clear = callResult freshDisplay Op.clear := by
  decide

/-- C13 amended: a transport failure reaches the caller as a status result only from `init()`
and only for the 23 bring-up command transfers: if command `k` is the first to fail, `init()`
returns its code; when all 23 succeed, `init()` returns success with the cursor at (0,0)
whatever the bus answers to the transfers of its screen clear. `clear`, `print`, `print_line`
and `contrast` are `void`: they hand the caller no status, and the cursor they leave is the
same whatever the bus returns. -/
theorem C13_status_amended (char_signed : Bool) (g_font6x8 : Nat → Nat → Nat)
    (d : SH1106)
    (hbring : ∀ j, j < 23 → d.bus.ret (d.bus.log.length + j) = PX4_OK) :
    (init PX4_OK d).1 = PX4_OK
    ∧ (init PX4_OK d).2._col = 0 ∧ (init PX4_OK d).2._row = 0
    ∧ (∀ (e : SH1106) (k : Nat), k < 23 →
        (∀ j, j < k → e.bus.ret (e.bus.log.length + j) = PX4_OK) →
        e.bus.ret (e.bus.log.length + k) ≠ PX4_OK →
        (init PX4_OK e).1 = e.bus.ret (e.bus.log.length + k))
    ∧ (∀ (op : Op) (e : SH1106), op.isInit = false → callResult e op = none)
    ∧ (∀ (op : Op) (e : SH1106), op.isInit = false → e._col = d._col → e._row = d._row →
        (step char_signed g_font6x8 e op)._col = (step char_signed g_font6x8 d op)._col
        ∧ (step char_signed g_font6x8 e op)._row
            = (step char_signed g_font6x8 d op)._row) := by
  have hrun := (send_cmds_run init_seq d.bus 23 hbring).1 rfl
  have hinit : init PX4_OK d
      = (PX4_OK, set_cursor 0 0
          (clear { d with bus := ⟨d.bus.log ++ cmdFrames init_seq, d.bus.ret⟩ })) := by
    simp only [init, ne_eq, not_true_eq_false, if_false, hrun]
  refine ⟨by rw [hinit], by rw [hinit]; rfl, by rw [hinit]; rfl, ?_, ?_, ?_⟩
  · intro e k hk hfirst hfail
    have hr := (send_cmds_run init_seq e.bus k hfirst).2 hk hfail
    simp only [init, ne_eq, not_true_eq_false, if_false, hr, hfail, not_false_eq_true,
      if_true]
  · intro op e hop
    cases op with
    | init i => simp [Op.isInit] at hop
    | clear => rfl
    | contrast c => rfl
    | set_cursor col row => rfl
    | print s => rfl
    | print_line row s => rfl
  · intro op e hop hc hr
    exact step_cursor_bus_free char_signed g_font6x8 op e d hop hc hr

/-- C13 amended, at a fresh driver on a bus whose transfer number 23 fails. -/
theorem C13_status_amended_witness :
    (init PX4_OK ⟨0, 0, failAt 23 (-1)⟩).1 = PX4_OK
    ∧ (init PX4_OK ⟨0, 0, failAt 23 (-1)⟩).2._col = 0
    ∧ (init PX4_OK ⟨0, 0, failAt 23 (-1)⟩).2._row = 0
    ∧ (∀ (e : SH1106) (k : Nat), k < 23 →
        (∀ j, j < k → e.bus.ret (e.bus.log.length + j) = PX4_OK) →
        e.bus.ret (e.bus.log.length + k) ≠ PX4_OK →
        (init PX4_OK e).1 = e.bus.ret (e.bus.log.length + k))
    ∧ (∀ (op : Op) (e : SH1106), op.isInit = false → callResult e op = none)
    ∧ (∀ (op : Op) (e : SH1106), op.isInit = false → e._col = 0 → e._row = 0 →
        (step true demoFont e op)._col
            = (step true demoFont ⟨0, 0, failAt 23 (-1)⟩ op)._col
        ∧ (step true demoFont e op)._row
            = (step true demoFont ⟨0, 0, failAt 23 (-1)⟩ op)._row) :=
  C13_status_amended true demoFont ⟨0, 0, failAt 23 (-1)⟩
    (by intro j hj; have h : j ≠ 23 := by omega
        simp only [failAt, List.length_nil, Nat.zero_add]
        rw [if_neg h])

/-! ## GPS line -/

theorem fmt_u_length (n : Nat) (h : n < 100000) : (fmt_u n).length ≤ 5 := by
  unfold fmt_u Nat.toDigits
  rw [List.length_map]
  exact Nat.toDigitsCore_length 10 (by decide) (n + 1) n 5 (by simpa using h) (by decide)

theorem gps_fix_length (t : Nat) : (gps_fix t).length ≤ 5 := by
  unfold gps_fix
  split_ifs <;> decide

/-- C14: for every fix type `t` and every satellite count `n` of at most five digits (which
covers every 8-bit and 16-bit count), the GPS line is "GPS: " + label + " Sats:" + decimal(n),
with label "RTK" for `t >= 5`, "DGPS" for 4, "3D" for 3, "2D" for 2 and "NOFIX" otherwise;
`t = 6` gives "RTK", `t = 1` and `t = 0` give "NOFIX", and `n = 11` gives a line ending in
"Sats:11". -/
theorem C14_gps_line (t n : Nat) (hn : n < 100000) :
    gps_line t n
        = ascii "GPS: "
            ++ (if 5 ≤ t then ascii "RTK"
                else if t = 4 then ascii "DGPS"
                else if t = 3 then ascii "3D"
                else if t = 2 then ascii "2D"
                else ascii "NOFIX")
            ++ ascii " Sats:" ++ fmt_u n
    ∧ gps_fix 6 = ascii "RTK" ∧ gps_fix 1 = ascii "NOFIX" ∧ gps_fix 0 = ascii "NOFIX"
    ∧ fmt_u 11 = ascii "11"
    ∧ (∃ pre : List Nat, gps_line t 11 = pre ++ ascii "Sats:11") := by
  have hmain : ∀ m, m < 100000 →
      gps_line t m = ascii "GPS: " ++ gps_fix t ++ ascii " Sats:" ++ fmt_u m := by
    intro m hm
    have hmod : m % 2 ^ 32 = m := Nat.mod_eq_of_lt (by omega)
    have h1 : (ascii "GPS: ").length = 5 := by decide
    have h2 : (ascii " Sats:").length = 6 := by decide
    have h3 := gps_fix_length t
    have h4 := fmt_u_length m hm
    unfold gps_line snprintf
    rw [hmod, List.take_of_length_le]
    simp only [List.length_append, h1, h2]
    omega
  refine ⟨hmain n hn, by decide, by decide, by decide, by decide, ?_⟩
  refine ⟨ascii "GPS: " ++ gps_fix t ++ [0x20], ?_⟩
  rw [hmain 11 (by decide)]
  have h5 : ascii " Sats:" ++ fmt_u 11 = [0x20] ++ ascii "Sats:11" := by decide
  rw [List.append_assoc, h5]
  simp only [List.append_assoc]

/-- C14 at fix type 4 with 11 satellites: the line reads "GPS: DGPS Sats:11". -/
theorem C14_gps_line_witness :
    gps_line 4 11 = ascii "GPS: DGPS Sats:11" := by
  have h := (C14_gps_line 4 11 (by decide)).1
  rw [h]
  decide

/-! ## The redraw at the end of every tick -/

theorem diff_draw_record (row : Nat) (line prev : List Nat) (calls : List (Nat × List Nat)) :
    ∃ e : List (Nat × List Nat), e.length ≤ 1
      ∧ (diff_draw record_print_line row line prev calls).1 = calls ++ e := by
  unfold diff_draw
  split_ifs
  · exact ⟨[(row, cstr line)], Nat.le_refl _, rfl⟩
  · exact ⟨[], Nat.zero_le _, (List.append_nil _).symm⟩

theorem Run_draw_record (lines : Lines) (calls : List (Nat × List Nat)) (prev : PrevLines) :
    ∃ pre : List (Nat × List Nat), pre.length ≤ 5
      ∧ (Run_draw record_print_line lines (calls, prev)).1
          = calls ++ pre ++ finalCalls lines := by
  obtain ⟨e1, l1, h1⟩ := diff_draw_record 0 lines.line1 prev.prev_line1 calls
  obtain ⟨e2, l2, h2⟩ := diff_draw_record 1 lines.line2 prev.prev_line2
    (diff_draw record_print_line 0 lines.line1 prev.prev_line1 calls).1
  obtain ⟨e3, l3, h3⟩ := diff_draw_record 0 lines.line3 prev.prev_line3
    (diff_draw record_print_line 1 lines.line2 prev.prev_line2
      (diff_draw record_print_line 0 lines.line1 prev.prev_line1 calls).1).1
  obtain ⟨e4, l4, h4⟩ := diff_draw_record 1 lines.line4 prev.prev_line4
    (diff_draw record_print_line 0 lines.line3 prev.prev_line3
      (diff_draw record_print_line 1 lines.line2 prev.prev_line2
        (diff_draw record_print_line 0 lines.line1 prev.prev_line1 calls).1).1).1
  obtain ⟨e5, l5, h5⟩ := diff_draw_record 1 lines.line5 prev.prev_line5
    (diff_draw record_print_line 1 lines.line4 prev.prev_line4
      (diff_draw record_print_line 0 lines.line3 prev.prev_line3
        (diff_draw record_print_line 1 lines.line2 prev.prev_line2
          (diff_draw record_print_line 0 lines.line1 prev.prev_line1 calls).1).1).1).1
  refine ⟨e1 ++ e2 ++ e3 ++ e4 ++ e5, ?_, ?_⟩
  · simp only [List.length_append]; omega
  · simp only [Run_draw]
    rw [h5, h4, h3, h2, h1]
    simp [record_print_line, finalCalls, List.append_assoc]

theorem print_line_ext (char_signed : Bool) (g_font6x8 : Nat → Nat → Nat) (row : Nat)
    (s : List Nat) (c r : Nat) (bus : Bus) (h : bus.allOk) (E : List (List Nat)) :
    print_line char_signed g_font6x8 row s ⟨c, r, ⟨bus.log ++ E, bus.ret⟩⟩
      = ⟨c, r, ⟨bus.log ++ (E ++ pageBlock row (print_line_buf char_signed g_font6x8 s)),
                bus.ret⟩⟩ := by
  rw [print_line_eq _ _ _ _ _ (allOk_extend bus h E)]
  simp [pageBlock, List.append_assoc]

theorem diff_draw_ext (char_signed : Bool) (g_font6x8 : Nat → Nat → Nat) (row : Nat)
    (line prev : List Nat) (c r : Nat) (bus : Bus) (h : bus.allOk) (E : List (List Nat)) :
    ∃ e : List (List Nat),
      (diff_draw (print_line char_signed g_font6x8) row line prev
          ⟨c, r, ⟨bus.log ++ E, bus.ret⟩⟩).1
        = ⟨c, r, ⟨bus.log ++ (E ++ e), bus.ret⟩⟩ := by
  unfold diff_draw
  split_ifs
  · exact ⟨_, print_line_ext char_signed g_font6x8 row line c r bus h E⟩
  · exact ⟨[], by simp⟩

/-- The bus after the drawing part of a tick on a working bus: whatever the compare-and-draw
blocks sent, then the five full-page writes of rows 0 to 4. -/
theorem Run_draw_bus (char_signed : Bool) (g_font6x8 : Nat → Nat → Nat) (lines : Lines)
    (d : SH1106) (prev : PrevLines) (h : d.bus.allOk) :
    ∃ pre : List (List Nat),
      (Run_draw (print_line char_signed g_font6x8) lines (d, prev)).1
        = ⟨d._col, d._row,
            ⟨d.bus.log ++ (pre
                ++ pageBlock 0 (print_line_buf char_signed g_font6x8 lines.line1)
                ++ pageBlock 1 (print_line_buf char_signed g_font6x8 lines.line2)
                ++ pageBlock 2 (print_line_buf char_signed g_font6x8 lines.line3)
                ++ pageBlock 3 (print_line_buf char_signed g_font6x8 lines.line4)
                ++ pageBlock 4 (print_line_buf char_signed g_font6x8 lines.line5)),
             d.bus.ret⟩⟩ := by
  have hd : d = ⟨d._col, d._row, ⟨d.bus.log ++ [], d.bus.ret⟩⟩ := by
    cases d with
    | mk c r bus => cases bus; simp
  obtain ⟨e1, h1⟩ := diff_draw_ext char_signed g_font6x8 0 lines.line1 prev.prev_line1
    d._col d._row d.bus h []
  obtain ⟨e2, h2⟩ := diff_draw_ext char_signed g_font6x8 1 lines.line2 prev.prev_line2
    d._col d._row d.bus h ([] ++ e1)
  obtain ⟨e3, h3⟩ := diff_draw_ext char_signed g_font6x8 0 lines.line3 prev.prev_line3
    d._col d._row d.bus h ([] ++ e1 ++ e2)
  obtain ⟨e4, h4⟩ := diff_draw_ext char_signed g_font6x8 1 lines.line4 prev.prev_line4
    d._col d._row d.bus h ([] ++ e1 ++ e2 ++ e3)
  obtain ⟨e5, h5⟩ := diff_draw_ext char_signed g_font6x8 1 lines.line5 prev.prev_line5
    d._col d._row d.bus h ([] ++ e1 ++ e2 ++ e3 ++ e4)
  refine ⟨[] ++ e1 ++ e2 ++ e3 ++ e4 ++ e5, ?_⟩
  simp only [Run_draw]
  rw [← hd] at h1
  rw [h1, h2, h3, h4, h5]
  simp only [print_line_ext char_signed g_font6x8 _ _ _ _ d.bus h]

/-! ## What the controller holds after a full-page write -/

theorem devWrite_fold : ∀ (bytes : List Nat) (dev : Device),
    (bytes.foldl devWrite dev).page = dev.page
    ∧ (bytes.foldl devWrite dev).col = dev.col + bytes.length
    ∧ ∀ p x, (bytes.foldl devWrite dev).ram p x
        = if p = dev.page ∧ dev.col ≤ x ∧ x < dev.col + bytes.length
            then bytes.getD (x - dev.col) 0 else dev.ram p x := by
  intro bytes
  induction bytes with
  | nil =>
    intro dev
    refine ⟨rfl, rfl, ?_⟩
    intro p x
    rw [if_neg]
    · rfl
    · intro h
      simp only [List.length_nil, Nat.add_zero] at h
      omega
  | cons b bs ih =>
    intro dev
    obtain ⟨hp, hc, hr⟩ := ih (devWrite dev b)
    rw [List.foldl_cons]
    refine ⟨hp, ?_, ?_⟩
    · rw [hc]; simp only [devWrite, List.length_cons]; omega
    · intro p x
      rw [hr]
      simp only [devWrite, List.length_cons]
      by_cases hpage : p = dev.page
      · by_cases hx : x = dev.col
        · subst hx
          simp [hpage]
        · by_cases hin : dev.col + 1 ≤ x ∧ x < dev.col + 1 + bs.length
          · have hin2 : dev.col ≤ x ∧ x < dev.col + (bs.length + 1) := by omega
            have hidx : x - dev.col = (x - (dev.col + 1)) + 1 := by omega
            rw [if_pos ⟨hpage, hin⟩, if_pos ⟨hpage, hin2⟩, hidx, List.getD_cons_succ]
          · have hin2 : ¬ (dev.col ≤ x ∧ x < dev.col + (bs.length + 1)) := by omega
            rw [if_neg (fun h => hin h.2), if_neg (fun h => hx h.2),
              if_neg (fun h => hin2 h.2)]
      · rw [if_neg (fun h => hpage h.1), if_neg (fun h => hpage h.1),
          if_neg (fun h => hpage h.1)]

theorem devRun_append (dev : Device) (a b : List (List Nat)) :
    devRun dev (a ++ b) = devRun (devRun dev a) b := by
  simp [devRun, List.foldl_append]

theorem devRun_data : ∀ (chunks : List (List Nat)) (dev : Device),
    devRun dev (chunks.map (fun c => 0x40 :: c)) = chunks.flatten.foldl devWrite dev := by
  intro chunks
  induction chunks with
  | nil => intro dev; rfl
  | cons c chunks ih =>
    intro dev
    have hstep : devRun dev ((0x40 :: c) :: chunks.map (fun c => 0x40 :: c))
        = devRun (c.foldl devWrite dev) (chunks.map (fun c => 0x40 :: c)) := by
      simp [devRun, devTransfer]
    rw [List.map_cons, hstep, ih, List.flatten_cons, List.foldl_append]

theorem devRun_address (dev : Device) (page : Nat) (h : page < 8) :
    devRun dev (cmdFrames (pageColBytes page 0)) = ⟨page, 2, dev.ram⟩ := by
  have hbytes : pageColBytes page 0 = [0xB0 + page, 2, 0x10] := by
    interval_cases page <;> rfl
  have h1 : devCommand dev (0xB0 + page) = ⟨page, dev.col, dev.ram⟩ := by
    unfold devCommand
    rw [if_pos (by omega), Nat.add_sub_cancel_left]
  have h2 : devCommand ⟨page, dev.col, dev.ram⟩ 2
      = ⟨page, dev.col / 16 * 16 + 2, dev.ram⟩ := by
    simp [devCommand]
  have h3 : devCommand ⟨page, dev.col / 16 * 16 + 2, dev.ram⟩ 0x10 = ⟨page, 2, dev.ram⟩ := by
    have hcol : (dev.col / 16 * 16 + 2) % 16 = 2 := by omega
    simp [devCommand, hcol]
  have hcmd : ∀ (e : Device) (c : Nat), devTransfer e [0x00, c] = devCommand e c := by
    intro e c
    simp [devTransfer]
  rw [hbytes]
  simp only [devRun, cmdFrames, List.map_cons, List.map_nil, List.foldl_cons, List.foldl_nil,
    hcmd, h1, h2, h3]

/-- A full-page write puts the 128 bytes of the buffer into columns 2..129 of its page and
touches nothing else. -/
theorem devRun_pageBlock (dev : Device) (page : Nat) (buf : List Nat) (hpage : page < 8)
    (hlen : buf.length = 128) :
    ∀ p x, (devRun dev (pageBlock page buf)).ram p x
      = if p = page ∧ 2 ≤ x ∧ x < 130 then buf.getD (x - 2) 0 else dev.ram p x := by
  intro p x
  have hframes : dataFrames buf 8
      = ((List.range 8).map (chunk16 buf)).map (fun c => 0x40 :: c) := by
    simp [dataFrames, List.map_map, Function.comp]
  have hflat : ((List.range 8).map (chunk16 buf)).flatten = buf := by
    rw [chunks_flatten, List.take_of_length_le (by omega)]
  unfold pageBlock
  rw [devRun_append, devRun_address dev page hpage, hframes, devRun_data, hflat,
    (devWrite_fold buf ⟨page, 2, dev.ram⟩).2.2 p x, hlen]

theorem devRun_five (dev : Device) (pre : List (List Nat)) (b0 b1 b2 b3 b4 : List Nat)
    (h0 : b0.length = 128) (h1 : b1.length = 128) (h2 : b2.length = 128)
    (h3 : b3.length = 128) (h4 : b4.length = 128) (x : Nat) (hx : x < 128) :
    (devRun dev (pre ++ pageBlock 0 b0 ++ pageBlock 1 b1 ++ pageBlock 2 b2
        ++ pageBlock 3 b3 ++ pageBlock 4 b4)).ram 0 (x + 2) = b0.getD x 0
    ∧ (devRun dev (pre ++ pageBlock 0 b0 ++ pageBlock 1 b1 ++ pageBlock 2 b2
        ++ pageBlock 3 b3 ++ pageBlock 4 b4)).ram 1 (x + 2) = b1.getD x 0
    ∧ (devRun dev (pre ++ pageBlock 0 b0 ++ pageBlock 1 b1 ++ pageBlock 2 b2
        ++ pageBlock 3 b3 ++ pageBlock 4 b4)).ram 2 (x + 2) = b2.getD x 0
    ∧ (devRun dev (pre ++ pageBlock 0 b0 ++ pageBlock 1 b1 ++ pageBlock 2 b2
        ++ pageBlock 3 b3 ++ pageBlock 4 b4)).ram 3 (x + 2) = b3.getD x 0
    ∧ (devRun dev (pre ++ pageBlock 0 b0 ++ pageBlock 1 b1 ++ pageBlock 2 b2
        ++ pageBlock 3 b3 ++ pageBlock 4 b4)).ram 4 (x + 2) = b4.getD x 0 := by
  have hin : 2 ≤ x + 2 ∧ x + 2 < 130 := by omega
  have hsub : x + 2 - 2 = x := by omega
  have e0 := fun D => devRun_pageBlock D 0 b0 (by decide) h0
  have e1 := fun D => devRun_pageBlock D 1 b1 (by decide) h1
  have e2 := fun D => devRun_pageBlock D 2 b2 (by decide) h2
  have e3 := fun D => devRun_pageBlock D 3 b3 (by decide) h3
  have e4 := fun D => devRun_pageBlock D 4 b4 (by decide) h4
  simp only [devRun_append]
  refine ⟨?_, ?_, ?_, ?_, ?_⟩
  · rw [e4, if_neg (by omega), e3, if_neg (by omega), e2, if_neg (by omega), e1,
      if_neg (by omega), e0, if_pos ⟨rfl, hin⟩, hsub]
  · rw [e4, if_neg (by omega), e3, if_neg (by omega), e2, if_neg (by omega), e1,
      if_pos ⟨rfl, hin⟩, hsub]
  · rw [e4, if_neg (by omega), e3, if_neg (by omega), e2, if_pos ⟨rfl, hin⟩, hsub]
  · rw [e4, if_neg (by omega), e3, if_pos ⟨rfl, hin⟩, hsub]
  · rw [e4, if_pos ⟨rfl, hin⟩, hsub]

/-- C16: every tick that does not exit early ends with the five calls `print_line(0, line1)`,
`print_line(1, line2)`, `print_line(2, line3)`, `print_line(3, line4)`, `print_line(4, line5)`
in that order, after at most five calls made by the compare-and-draw blocks; the stored
previous lines then equal the current lines; and on a bus whose transfers all succeed the
tick's transfers end with the full-page writes of rows 0 to 4, so that the controller's pages
0 to 4 hold the renderings of line1 to line5 in columns 2 to 129, whatever it held before. -/
theorem C16_tick_redraws_all (char_signed : Bool) (g_font6x8 : Nat → Nat → Nat)
    (lines : Lines) (prev : PrevLines) (calls : List (Nat × List Nat)) (d : SH1106)
    (hok : d.bus.allOk) :
    (∃ pre : List (Nat × List Nat), pre.length ≤ 5
      ∧ (Run record_print_line false lines (calls, prev)).1
          = calls ++ pre ++ [(0, cstr lines.line1), (1, cstr lines.line2),
              (2, cstr lines.line3), (3, cstr lines.line4), (4, cstr lines.line5)])
    ∧ (cstr (Run (print_line char_signed g_font6x8) false lines (d, prev)).2.prev_line1
          = cstr lines.line1
        ∧ cstr (Run (print_line char_signed g_font6x8) false lines (d, prev)).2.prev_line2
          = cstr lines.line2
        ∧ cstr (Run (print_line char_signed g_font6x8) false lines (d, prev)).2.prev_line3
          = cstr lines.line3
        ∧ cstr (Run (print_line char_signed g_font6x8) false lines (d, prev)).2.prev_line4
          = cstr lines.line4
        ∧ cstr (Run (print_line char_signed g_font6x8) false lines (d, prev)).2.prev_line5
          = cstr lines.line5)
    ∧ (∃ new : List (List Nat),
        (Run (print_line char_signed g_font6x8) false lines (d, prev)).1.bus.log
          = d.bus.log ++ new
        ∧ (∃ pre : List (List Nat), new = pre
            ++ pageBlock 0 (print_line_buf char_signed g_font6x8 lines.line1)
            ++ pageBlock 1 (print_line_buf char_signed g_font6x8 lines.line2)
            ++ pageBlock 2 (print_line_buf char_signed g_font6x8 lines.line3)
            ++ pageBlock 3 (print_line_buf char_signed g_font6x8 lines.line4)
            ++ pageBlock 4 (print_line_buf char_signed g_font6x8 lines.line5))
        ∧ ∀ (dev : Device) (x : Nat), x < 128 →
            (devRun dev new).ram 0 (x + 2)
                = (print_line_buf char_signed g_font6x8 lines.line1).getD x 0
            ∧ (devRun dev new).ram 1 (x + 2)
                = (print_line_buf char_signed g_font6x8 lines.line2).getD x 0
            ∧ (devRun dev new).ram 2 (x + 2)
                = (print_line_buf char_signed g_font6x8 lines.line3).getD x 0
            ∧ (devRun dev new).ram 3 (x + 2)
                = (print_line_buf char_signed g_font6x8 lines.line4).getD x 0
            ∧ (devRun dev new).ram 4 (x + 2)
                = (print_line_buf char_signed g_font6x8 lines.line5).getD x 0) := by
  refine ⟨?_, ?_, ?_⟩
  · simpa [Run, finalCalls] using Run_draw_record lines calls prev
  · simpa [Run] using Run_draw_prev (print_line char_signed g_font6x8) lines (d, prev)
  · obtain ⟨pre, hpre⟩ := Run_draw_bus char_signed g_font6x8 lines d prev hok
    refine ⟨_, ?_, ⟨pre, rfl⟩, ?_⟩
    · simp only [Run, Bool.false_eq_true, if_false, hpre]
    · intro dev x hx
      exact devRun_five dev pre _ _ _ _ _ (print_line_buf_length _ _ _)
        (print_line_buf_length _ _ _) (print_line_buf_length _ _ _)
        (print_line_buf_length _ _ _) (print_line_buf_length _ _ _) x hx

/-- C16 at the lines "A".."E" after a tick with "A","B","X","D","E", on a working bus. -/
theorem C16_tick_redraws_all_witness :
    (∃ new : List (List Nat),
        (Run (print_line true demoFont) false linesABCDE
            (freshDisplay,
             (Run record_print_line false linesABXDE ([], PrevLines.initial)).2)).1.bus.log
          = freshDisplay.bus.log ++ new
        ∧ ∀ (dev : Device) (x : Nat), x < 128 →
            (devRun dev new).ram 2 (x + 2)
                = (print_line_buf true demoFont linesABCDE.line3).getD x 0) :=
  have h := (C16_tick_redraws_all true demoFont linesABCDE
    (Run record_print_line false linesABXDE ([], PrevLines.initial)).2 [] freshDisplay
    (okBus_allOk [])).2.2
  h.elim fun new hn => ⟨new, hn.1, fun dev x hx => (hn.2.2 dev x hx).2.2.1⟩

/-! ## Index and offset bounds -/

theorem print_line_loop_offsets (char_signed : Bool) (g_font6x8 : Nat → Nat → Nat) :
    ∀ (s : List Nat) (x : Nat) (buf : List Nat),
      print_line_loop char_signed g_font6x8 s x buf
        = ((print_line_offsets s x).zip s).foldl
            (fun acc ob => memcpy acc ob.1 (glyph char_signed g_font6x8 ob.2) 6) buf := by
  intro s
  induction s with
  | nil => intro x buf; rfl
  | cons b s ih =>
    intro x buf
    by_cases h : b ≠ 0 ∧ x < 21
    · simp only [print_line_loop, print_line_offsets, if_pos h, List.zip_cons_cons,
        List.foldl_cons, ih]
    · simp only [print_line_loop, print_line_offsets, if_neg h, List.zip_nil_left,
        List.foldl_nil]

theorem print_line_offsets_bound : ∀ (s : List Nat) (x off : Nat),
    off ∈ print_line_offsets s x → ∃ i, x ≤ i ∧ i ≤ 20 ∧ off = i * 6 := by
  intro s
  induction s with
  | nil => intro x off h; simp [print_line_offsets] at h
  | cons b s ih =>
    intro x off h
    by_cases hc : b ≠ 0 ∧ x < 21
    · simp only [print_line_offsets, if_pos hc, List.mem_cons] at h
      rcases h with h | h
      · exact ⟨x, Nat.le_refl _, by omega, h⟩
      · obtain ⟨i, hi1, hi2, hi3⟩ := ih (x + 1) off h
        exact ⟨i, by omega, hi2, hi3⟩
    · simp [print_line_offsets, if_neg hc] at h

/-- C17: for every byte value 0..255 and either signedness of `char`, the table index
`c - 0x20` that `print` and `print_line` compute after the fallback substitution lies in
0..95; and every glyph copy of `print_line` goes to buffer positions `6*x .. 6*x+5` with
`x <= 20`, so `6*x+5 <= 125 < 128`, the copies being exactly those that build the buffer. -/
theorem C17_index_and_offset_bounds (char_signed : Bool) (g_font6x8 : Nat → Nat → Nat)
    (b : Nat) (s : List Nat) (hb : b < 256) :
    (0 ≤ fontIndex (fallback (charVal char_signed b))
      ∧ fontIndex (fallback (charVal char_signed b)) ≤ 95)
    ∧ glyph char_signed g_font6x8 b
        = (List.range 6).map
            (g_font6x8 (fontIndex (fallback (charVal char_signed b))).toNat)
    ∧ print_line_buf char_signed g_font6x8 s
        = ((print_line_offsets s 0).zip s).foldl
            (fun acc ob => memcpy acc ob.1 (glyph char_signed g_font6x8 ob.2) 6)
            (List.replicate 128 0)
    ∧ (∀ off, off ∈ print_line_offsets s 0 →
        ∃ x, x ≤ 20 ∧ off = 6 * x ∧ off + 5 ≤ 125 ∧ 125 < 128)
    ∧ (print_line_buf char_signed g_font6x8 s).length = 128 := by
  refine ⟨?_, rfl, print_line_loop_offsets char_signed g_font6x8 s 0 _, ?_,
    print_line_buf_length char_signed g_font6x8 s⟩
  · by_cases hin : 0x20 ≤ b ∧ b ≤ 0x7F
    · rw [fontIndex_in_range char_signed b hin]
      omega
    · rw [fontIndex_out_of_range char_signed b hb (by omega)]
      decide
  · intro off hoff
    obtain ⟨i, _, hi, heq⟩ := print_line_offsets_bound s 0 off hoff
    exact ⟨i, hi, by omega, by omega, by decide⟩

/-- C17 at the byte 0xFF with a signed `char` and a string of 25 characters. -/
theorem C17_index_and_offset_bounds_witness :
    (0 ≤ fontIndex (fallback (charVal true 0xFF))
      ∧ fontIndex (fallback (charVal true 0xFF)) ≤ 95)
    ∧ (∀ off, off ∈ print_line_offsets (List.replicate 25 0x41) 0 →
        ∃ x, x ≤ 20 ∧ off = 6 * x ∧ off + 5 ≤ 125 ∧ 125 < 128) :=
  have h := C17_index_and_offset_bounds true demoFont 0xFF (List.replicate 25 0x41)
    (by decide)
  ⟨h.1, h.2.2.2.1⟩

/-! ## `print` after a row overflow -/

end Oled
